import Mathlib

/-!
Verification of the corosync configuration-management core of crmsh.

This file gives a shallow embedding of the configuration tree model
(`crmsh/corosync.py`: `ConfParser`, `LinkManager`) and of the migration
engine (`crmsh/migration.py`), and proves properties of the embedded
operations.

The configuration dom produced by `corosync_config_format.DomParser` is a
Python dict whose values are strings, nested dicts, or lists of nested
dicts.  It is embedded as an ordered association list (`DomNode`), which
matches the insertion-ordered semantics of Python dicts: setting a fresh
key appends, setting an existing key overwrites in place, deleting removes
the entry.

Python exceptions are embedded as an explicit error type `LmErr`; a
distinct constructor is used for each distinguishable failure (the source
mostly raises `ValueError` with distinct messages, plus dataclass
exceptions `MissingNodesException` and `DuplicatedNodeAddressException`,
and assertion/KeyError/IndexError/TypeError/AttributeError crashes).

Stateful operations of `LinkManager` mutate the dom in place in the
source; they are embedded as functions returning `Option LmErr × DomNode`
where the returned dom is the state of the tree at the moment the
operation returns or the exception propagates, so that partial mutations
are observable.
-/

namespace Crmsh

/-- A value in the configuration dom: a scalar string, a nested section,
or a repeated section (a Python list; its elements are section nodes in
every well-formed file, but the type allows arbitrary values, as Python
does). -/
inductive DomValue : Type where
  | scalar (s : String)
  | node (entries : List (String × DomValue))
  | seq (elems : List DomValue)

/-- A section of the configuration dom: an insertion-ordered mapping from
keys to values, embedded as an association list without duplicate keys
(Python dicts cannot hold duplicates; none of the embedded operations
introduces one). -/
abbrev DomNode := List (String × DomValue)

/-- Python `d[k]` / `d.get(k)`: first binding of `k`. -/
def alistGet? {κ α : Type} [DecidableEq κ] : List (κ × α) → κ → Option α
  | [], _ => none
  | (k', v) :: rest, k => if k' = k then some v else alistGet? rest k

/-- Python `d[k] = v`: overwrite in place if present, append otherwise. -/
def alistSet {κ α : Type} [DecidableEq κ] : List (κ × α) → κ → α → List (κ × α)
  | [], k, v => [(k, v)]
  | (k', v') :: rest, k, v =>
    if k' = k then (k, v) :: rest else (k', v') :: alistSet rest k v

/-- Python `d.pop(k, None)` / `del d[k]` (without the KeyError): remove the
first binding of `k` if present. -/
def alistErase {κ α : Type} [DecidableEq κ] : List (κ × α) → κ → List (κ × α)
  | [], _ => []
  | (k', v') :: rest, k =>
    if k' = k then rest else (k', v') :: alistErase rest k

/-- Python `int(s)` on a string, restricted to an optional minus sign
followed by decimal digits (the only shapes the configuration code
produces); any other string raises `ValueError`, embedded as `none`. -/
def parsePyIntDigits : List Char → Nat → Option Nat
  | [], acc => some acc
  | c :: cs, acc =>
    if c.isDigit then parsePyIntDigits cs (acc * 10 + (c.toNat - 48)) else none

def parsePyInt (s : String) : Option Int :=
  match s.data with
  | [] => none
  | '-' :: cs =>
    match cs with
    | [] => none
    | _ => (parsePyIntDigits cs 0).map (fun n => -(n : Int))
  | cs => (parsePyIntDigits cs 0).map (fun n => (n : Int))

/-- The distinguishable failures of the embedded operations.  Generic
Python crashes (KeyError, IndexError, TypeError, AttributeError, failed
`assert`, exhausted `next()`) keep their exception kind; `ValueError`s
raised explicitly by the source keep the identifying payload of their
message; the dataclass exceptions keep their fields. -/
inductive LmErr : Type where
  | keyError
  | indexError
  | typeError
  | attributeError
  | assertionError
  | stopIteration
  | parseValueError
  | linkDoesNotExist (linknumber : Nat)
  | nodesOptionRejected
  | unsupportedOption (option : String)
  | unknownNodeid (nodeid : Int)
  | duplicatedNodeAddress (address : String) (node1 : Int) (node2 : Int)
  | missingNodes (nodeids : List Int)
  | capacityExceeded
  | cannotRemoveLastLink
  deriving DecidableEq

/-- Whether a failure is the missing-nodes condition of `add_link` (used
to state that no other code path produces it). -/
def LmErr.isMissingNodes : LmErr → Bool
  | .missingNodes _ => true
  | _ => false

/-- `crmsh.corosync.LinkNode`. -/
structure LinkNode : Type where
  nodeid : Int
  name : String
  addr : String
  deriving DecidableEq

/-- `crmsh.corosync.Link`: per-link data derived from the dom.  Field
order matches the dataclass declaration order, which the source iterates
over in `load_options` and `dataclasses.asdict`. -/
structure Link : Type where
  linknumber : Int := -1
  nodes : List LinkNode := []
  mcastport : Option Int := none
  knet_link_priority : Option Int := none
  knet_ping_interval : Option Int := none
  knet_ping_timeout : Option Int := none
  knet_ping_precision : Option Int := none
  knet_pong_count : Option Int := none
  knet_transport : Option String := none
  deriving DecidableEq

def KNET_LINK_NUM_LIMIT : Nat := 8

/-- Sequential `Except`-valued map, stopping at the first error (the
evaluation order of the source's comprehensions and loops). -/
def mapE {α β : Type} (f : α → Except LmErr β) : List α → Except LmErr (List β)
  | [] => .ok []
  | a :: as =>
    match f a with
    | .error e => .error e
    | .ok b =>
      match mapE f as with
      | .error e => .error e
      | .ok bs => .ok (b :: bs)

/-- Read a list element as a section node; on any other value the source
code crashes at the point it first treats the element as a dict, with an
exception kind depending on the call site (`e` at each site below). -/
def asNode (e : LmErr) : DomValue → Except LmErr DomNode
  | .node n => .ok n
  | _ => .error e

def asNodes (e : LmErr) (xs : List DomValue) : Except LmErr (List DomNode) :=
  mapE (asNode e) xs

/-! ### `ConfParser` (path addressor) -/

/-- `ConfParser.COROSYNC_KNOWN_SEC_NAMES_WITH_LIST` (a two-element set of
key paths; embedded as a list, membership being all that is used). -/
def COROSYNC_KNOWN_SEC_NAMES_WITH_LIST : List (List String) :=
  [["totem", "interface"], ["nodelist", "node"]]

/-- The last-key block of `ConfParser._raw_set`: insert or overwrite the
value under `key`, with list-index semantics only when the slot already
holds a list (any other existing value is overwritten regardless of
`index`). -/
def rawSetFinal (node : DomNode) (key : String) (value : DomValue) (index : Nat) :
    Except LmErr DomNode :=
  match alistGet? node key with
  | none => .ok (alistSet node key value)
  | some (.seq li) =>
    if index > li.length then .error .indexError
    else if index = li.length then .ok (alistSet node key (.seq (li ++ [value])))
    else .ok (alistSet node key (.seq (li.set index value)))
  | some _ => .ok (alistSet node key value)

/-- The descent loop of `ConfParser._raw_set`.  `pathStack` accumulates
the keys walked so far (the source's `path_stack`).  A `case` statement
with no matching pattern is a silent no-op in Python, so an intermediate
scalar leaves the focus node unchanged and continues with the next key. -/
def rawSetGo (node : DomNode) (keys : List String) (lastKey : String) (value : DomValue)
    (index : Nat) (pathStack : List String) : Except LmErr DomNode :=
  match keys with
  | [] => rawSetFinal node lastKey value index
  | k :: rest =>
    let stack' := pathStack ++ [k]
    match alistGet? node k with
    | none =>
      match rawSetGo [] rest lastKey value index stack' with
      | .error e => .error e
      | .ok sub => .ok (alistSet node k (.node sub))
    | some (.node next) =>
      if index > 0 ∧ stack' ∈ COROSYNC_KNOWN_SEC_NAMES_WITH_LIST then
        if index = 1 then
          match rawSetGo [] rest lastKey value index stack' with
          | .error e => .error e
          | .ok sub => .ok (alistSet node k (.seq [DomValue.node next, DomValue.node sub]))
        else .error .indexError
      else
        match rawSetGo next rest lastKey value index stack' with
        | .error e => .error e
        | .ok sub => .ok (alistSet node k (.node sub))
    | some (.seq li) =>
      if index > li.length then .error .indexError
      else if index = li.length then
        match rawSetGo [] rest lastKey value index stack' with
        | .error e => .error e
        | .ok sub => .ok (alistSet node k (.seq (li ++ [DomValue.node sub])))
      else
        match li.getD index (.node []) with
        | .node next =>
          match rawSetGo next rest lastKey value index stack' with
          | .error e => .error e
          | .ok sub => .ok (alistSet node k (.seq (li.set index (DomValue.node sub))))
        | _ => .error .typeError
    | some (.scalar _) => rawSetGo node rest lastKey value index stack'

/-- `ConfParser._raw_set` on an already-split path.  Descending through an
existing list selects element `index`; `rawSetFinal`'s caveat about the
source writing a raw value into a list slot is embedded by restricting
appended/assigned list elements to section values. -/
def rawSet (dom : DomNode) (path : List String) (value : DomValue) (index : Nat) :
    Except LmErr DomNode :=
  match path with
  | [] => .error .keyError
  | _ =>
    match path.getLast? with
    | none => .error .keyError
    | some lastKey => rawSetGo dom (path.dropLast) lastKey value index []

/-- `ConfParser.set`: split the dotted path and run `_raw_set`
(`KeyError`/`IndexError` is re-raised as `ValueError` by the source; the
error kind is kept here since nothing downstream distinguishes it). -/
def ConfParser_set (dom : DomNode) (path : String) (value : DomValue) (index : Nat) :
    Except LmErr DomNode :=
  rawSet dom (path.splitOn ".") value index

/-- One path of `ConfParser.transform_dom_with_list_schema`: if
`dom[sec][key]` exists and is not already a list, wrap it into a
one-element list.  (`DomQuery.get`, from the grammar module that is not
part of the sources, is modelled from the spec as a plain path lookup
whose absence is the silently-caught `KeyError`.) -/
def transformAt (dom : DomNode) (sec : String) (key : String) : DomNode :=
  match alistGet? dom sec with
  | some (.node parent) =>
    match alistGet? parent key with
    | none => dom
    | some (.seq _) => dom
    | some v => alistSet dom sec (.node (alistSet parent key (.seq [v])))
  | _ => dom

/-- `ConfParser.transform_dom_with_list_schema`.  The source iterates over
a two-element set whose members address disjoint keys, so the iteration
order is immaterial. -/
def transform_dom_with_list_schema (dom : DomNode) : DomNode :=
  transformAt (transformAt dom "totem" "interface") "nodelist" "node"

/-- The Boolean guard used to state the claim about `_raw_set` descents:
every intermediate key of `keys` holds a single section node, no walked
prefix is a declared list-capable path, and the final key `lastKey` holds
a scalar or a single node. -/
def chainOK (node : DomNode) (stack : List String) (keys : List String) (lastKey : String) :
    Bool :=
  match keys with
  | [] =>
    match alistGet? node lastKey with
    | some (.scalar _) => true
    | some (.node _) => true
    | _ => false
  | k :: rest =>
    match alistGet? node k with
    | some (.node next) =>
      !(decide ((stack ++ [k]) ∈ COROSYNC_KNOWN_SEC_NAMES_WITH_LIST)) &&
        chainOK next (stack ++ [k]) rest lastKey
    | _ => false

/-- Path-following lookup through single nodes, used to observe the value
written at the addressed slot. -/
def chainLookup (node : DomNode) (keys : List String) (lastKey : String) : Option DomValue :=
  match keys with
  | [] => alistGet? node lastKey
  | k :: rest =>
    match alistGet? node k with
    | some (.node next) => chainLookup next rest lastKey
    | _ => none

/-! ### `Link.load_options` -/

/-- Option maps handed to `load_options` / `update_link`: a `None` value
(`none` here) resets a field to its default. -/
abbrev OptMap := List (String × Option String)

/-- `Link.__load_option` for the plain-int field `linknumber`; an
explicit `None` value trips the source's assert. -/
def loadLinknumberField (data : OptMap) (cur : Int) : Except LmErr Int :=
  match alistGet? data "linknumber" with
  | none => .ok cur
  | some none => .error .assertionError
  | some (some v) =>
    match parsePyInt v with
    | none => .error .parseValueError
    | some n => .ok n

/-- `Link.__load_option` for an `Optional[int]` field (`int(value)` raises
`ValueError` on a non-numeric string). -/
def loadOptIntField (data : OptMap) (name : String) (cur : Option Int) :
    Except LmErr (Option Int) :=
  match alistGet? data name with
  | none => .ok cur
  | some none => .ok none
  | some (some v) =>
    match parsePyInt v with
    | none => .error .parseValueError
    | some n => .ok (some n)

/-- `Link.__load_option` for the `Optional[str]` field `knet_transport`. -/
def loadOptStrField (data : OptMap) (name : String) (cur : Option String) :
    Except LmErr (Option String) :=
  match alistGet? data name with
  | none => .ok cur
  | some v => .ok v

/-- `Link.load_options`: update every field named in `data`, iterating the
dataclass fields in declaration order and skipping `nodes`. -/
def Link.load_options (l : Link) (data : OptMap) : Except LmErr Link :=
  match loadLinknumberField data l.linknumber with
  | .error e => .error e
  | .ok ln =>
    match loadOptIntField data "mcastport" l.mcastport with
    | .error e => .error e
    | .ok mp =>
      match loadOptIntField data "knet_link_priority" l.knet_link_priority with
      | .error e => .error e
      | .ok klp =>
        match loadOptIntField data "knet_ping_interval" l.knet_ping_interval with
        | .error e => .error e
        | .ok kpi =>
          match loadOptIntField data "knet_ping_timeout" l.knet_ping_timeout with
          | .error e => .error e
          | .ok kpt =>
            match loadOptIntField data "knet_ping_precision" l.knet_ping_precision with
            | .error e => .error e
            | .ok kpp =>
              match loadOptIntField data "knet_pong_count" l.knet_pong_count with
              | .error e => .error e
              | .ok kpc =>
                match loadOptStrField data "knet_transport" l.knet_transport with
                | .error e => .error e
                | .ok kt =>
                  .ok { l with linknumber := ln, mcastport := mp, knet_link_priority := klp,
                               knet_ping_interval := kpi, knet_ping_timeout := kpt,
                               knet_ping_precision := kpp, knet_pong_count := kpc,
                               knet_transport := kt }

/-- View an interface section of the dom as a `load_options` argument.
Interface values are scalar strings in any well-formed file; a nested
value would make the source's `int()` conversion crash (folded to
`typeError`). -/
def domOptions (x : DomNode) : Except LmErr OptMap :=
  mapE (fun kv => match kv.2 with
    | DomValue.scalar s => .ok (kv.1, some s)
    | _ => .error LmErr.typeError) x

def Link.loadOptionsDom (l : Link) (x : DomNode) : Except LmErr Link :=
  match domOptions x with
  | .error e => .error e
  | .ok data => l.load_options data

/-- `LinkManager.LINK_OPTIONS_UPDATABLE`: the dataclass fields minus
`linknumber` and `nodes` (a set in the source; only membership is used). -/
def LINK_OPTIONS_UPDATABLE : List String :=
  ["mcastport", "knet_link_priority", "knet_ping_interval", "knet_ping_timeout",
   "knet_ping_precision", "knet_pong_count", "knet_transport"]

/-! ### `LinkManager.links` -/

/-- `LinkManager.totem_transport`.  A non-scalar `transport` value can
never compare equal to the string 'knet', so the assert at the top of
`links()` (the only consumer here) fails on it; that failing assert is
folded into this accessor. -/
def totem_transport (cfg : DomNode) : Except LmErr String :=
  match alistGet? cfg "totem" with
  | none => .ok "knet"
  | some (.node t) =>
    match alistGet? t "transport" with
    | none => .ok "knet"
    | some (.scalar s) => .ok s
    | some _ => .error .assertionError
  | some _ => .error .typeError

/-- The f-string `f'ring{i}_addr'`. -/
def ringAddrKey (i : Nat) : String := "ring" ++ toString i ++ "_addr"

/-- `int(node['nodeid'])`. -/
def nodeIdOf (n : DomNode) : Except LmErr Int :=
  match alistGet? n "nodeid" with
  | none => .error .keyError
  | some (.scalar s) =>
    match parsePyInt s with
    | none => .error .parseValueError
    | some v => .ok v
  | some _ => .error .typeError

/-- `node['name']` (required scalar in the embedding; the source would
carry a nested value around opaquely). -/
def nameOf (n : DomNode) : Except LmErr String :=
  match alistGet? n "name" with
  | none => .error .keyError
  | some (.scalar s) => .ok s
  | some _ => .error .typeError

/-- `node[f'ring{i}_addr']` (required scalar in the embedding). -/
def ringAddrOf (i : Nat) (n : DomNode) : Except LmErr String :=
  match alistGet? n (ringAddrKey i) with
  | none => .error .keyError
  | some (.scalar s) => .ok s
  | some _ => .error .typeError

/-- Stable insertion step for sorting by ascending nodeid
(`link_nodes.sort(key=lambda node: node.nodeid)`, Python sorts stably). -/
def insertByNodeid (x : LinkNode) : List LinkNode → List LinkNode
  | [] => [x]
  | y :: ys => if y.nodeid < x.nodeid then y :: insertByNodeid x ys else x :: y :: ys

def sortByNodeid : List LinkNode → List LinkNode
  | [] => []
  | x :: xs => insertByNodeid x (sortByNodeid xs)

/-- `zip(ids, names, addrs)` into `LinkNode`s. -/
def zipNodes : List Int → List String → List String → List LinkNode
  | i :: is, n :: ns, a :: as => ⟨i, n, a⟩ :: zipNodes is ns as
  | _, _, _ => []

/-- Extract `config['nodelist']['node']` as the source's `links()` does:
an absent section makes `links()` return the empty list; the
`isinstance(list)` assert rejects a non-list; each element is treated as a
dict by the node asserts that follow (a non-dict element fails them). -/
def getNodeEntries (cfg : DomNode) : Except LmErr (Option (List DomNode)) :=
  match alistGet? cfg "nodelist" with
  | none => .ok none
  | some (.node nl) =>
    match alistGet? nl "node" with
    | none => .ok none
    | some (.seq xs) =>
      match asNodes .assertionError xs with
      | .error e => .error e
      | .ok ns => .ok (some ns)
    | some _ => .error .assertionError
  | some _ => .error .typeError

/-- The per-ring slot of `links()`: present iff the *first* node entry
defines the ring's address field. -/
def slotLink (ns : List DomNode) (ids : List Int) (names : List String) (i : Nat) :
    Except LmErr (Option Link) :=
  match ns with
  | [] => .ok none
  | n0 :: _ =>
    match alistGet? n0 (ringAddrKey i) with
    | none => .ok none
    | some _ =>
      match mapE (ringAddrOf i) ns with
      | .error e => .error e
      | .ok addrs =>
        .ok (some { linknumber := (i : Int), nodes := sortByNodeid (zipNodes ids names addrs) })

/-- Extract `config['totem']['interface']` as `links()` does (absent key:
return the links unchanged; the assert rejects a non-list). -/
def interfaceEntries (cfg : DomNode) : Except LmErr (Option (List DomNode)) :=
  match alistGet? cfg "totem" with
  | none => .ok none
  | some (.node t) =>
    match alistGet? t "interface" with
    | none => .ok none
    | some (.seq xs) =>
      match asNodes .typeError xs with
      | .error e => .error e
      | .ok is => .ok (some is)
    | some _ => .error .assertionError
  | some _ => .error .typeError

/-- Build `links_option_dict`: each interface entry keyed by the
`linknumber` parsed out of it via `Link().load_options`, later entries
overwriting earlier ones with the same key. -/
def linksOptionDictGo : List DomNode → List (Int × DomNode) →
    Except LmErr (List (Int × DomNode))
  | [], acc => .ok acc
  | x :: rest, acc =>
    match ({} : Link).loadOptionsDom x with
    | .error e => .error e
    | .ok l => linksOptionDictGo rest (alistSet acc l.linknumber x)

def linksOptionDict (xs : List DomNode) : Except LmErr (List (Int × DomNode)) :=
  linksOptionDictGo xs []

/-- The final comprehension of `links()`: merge the per-link tuning
options into each present slot. -/
def mergeLinkOptionsGo (dict : List (Int × DomNode)) : Nat → List (Option Link) →
    Except LmErr (List (Option Link))
  | _, [] => .ok []
  | i, none :: rest =>
    match mergeLinkOptionsGo dict (i + 1) rest with
    | .error e => .error e
    | .ok rest' => .ok (none :: rest')
  | i, some link :: rest =>
    match alistGet? dict (Int.ofNat i) with
    | none =>
      match mergeLinkOptionsGo dict (i + 1) rest with
      | .error e => .error e
      | .ok rest' => .ok (some link :: rest')
    | some x =>
      match link.loadOptionsDom x with
      | .error e => .error e
      | .ok link' =>
        match mergeLinkOptionsGo dict (i + 1) rest with
        | .error e => .error e
        | .ok rest' => .ok (some link' :: rest')

/-- `LinkManager.links()`. -/
def links (cfg : DomNode) : Except LmErr (List (Option Link)) :=
  match totem_transport cfg with
  | .error e => .error e
  | .ok t =>
    if t ≠ "knet" then .error .assertionError
    else
      match getNodeEntries cfg with
      | .error e => .error e
      | .ok none => .ok []
      | .ok (some ns) =>
        if ns.isEmpty then .error .assertionError
        else if !(ns.all fun n => (alistGet? n "nodeid").isSome) then .error .assertionError
        else if !(ns.all fun n => (alistGet? n "name").isSome) then .error .assertionError
        else
          match mapE nodeIdOf ns with
          | .error e => .error e
          | .ok ids =>
            match mapE nameOf ns with
            | .error e => .error e
            | .ok names =>
              match mapE (slotLink ns ids names) (List.range KNET_LINK_NUM_LIMIT) with
              | .error e => .error e
              | .ok base =>
                match interfaceEntries cfg with
                | .error e => .error e
                | .ok none => .ok base
                | .ok (some xs) =>
                  match linksOptionDict xs with
                  | .error e => .error e
                  | .ok dict => mergeLinkOptionsGo dict 0 base

/-! ### `LinkManager.update_link` -/

/-- `next((i for i, x in enumerate(interfaces) if x.get('linknumber', -1)
== linknumber_str), -1)`; the default `-1` (an int) never equals the
string, so only scalar values can match. -/
def findInterfaceIndexGo (lnStr : String) : List DomNode → Nat → Option Nat
  | [], _ => none
  | x :: rest, i =>
    match alistGet? x "linknumber" with
    | some (.scalar s) =>
      if s = lnStr then some i else findInterfaceIndexGo lnStr rest (i + 1)
    | _ => findInterfaceIndexGo lnStr rest (i + 1)

def findInterfaceIndex (xs : List DomNode) (lnStr : String) : Option Nat :=
  findInterfaceIndexGo lnStr xs 0

/-- One step of the `dataclasses.asdict` write-back loop: a `None`-valued
field is popped from the interface record, any other is written as
`str(v)`. -/
def applyOptField (x : DomNode) (k : String) : Option String → DomNode
  | none => alistErase x k
  | some v => alistSet x k (.scalar v)

def applyLinkOptions (link : Link) (x0 : DomNode) : DomNode :=
  let x1 := applyOptField x0 "mcastport" (link.mcastport.map toString)
  let x2 := applyOptField x1 "knet_link_priority" (link.knet_link_priority.map toString)
  let x3 := applyOptField x2 "knet_ping_interval" (link.knet_ping_interval.map toString)
  let x4 := applyOptField x3 "knet_ping_timeout" (link.knet_ping_timeout.map toString)
  let x5 := applyOptField x4 "knet_ping_precision" (link.knet_ping_precision.map toString)
  let x6 := applyOptField x5 "knet_pong_count" (link.knet_pong_count.map toString)
  applyOptField x6 "knet_transport" link.knet_transport

/-- `LinkManager.update_link` up to the point where the dom is mutated;
every raise of the source happens before the first mutation, so the
wrapper below restores the untouched dom on error. -/
def update_link_pure (cfg : DomNode) (ln : Nat) (options : OptMap) : Except LmErr DomNode :=
  match links cfg with
  | .error e => .error e
  | .ok ls =>
    if ln ≥ KNET_LINK_NUM_LIMIT then .error (.linkDoesNotExist ln)
    else
      match ls.get? ln with
      | none => .error .indexError
      | some none => .error (.linkDoesNotExist ln)
      | some (some link0) =>
        if options.any (fun p => p.1 = "nodes") then .error .nodesOptionRejected
        else
          match options.find? (fun p => !(LINK_OPTIONS_UPDATABLE.contains p.1)) with
          | some p => .error (.unsupportedOption p.1)
          | none =>
            match link0.load_options options with
            | .error e => .error e
            | .ok link' =>
              match alistGet? cfg "totem" with
              | some (.node t) =>
                match (match alistGet? t "interface" with
                       | none => Except.ok ([] : List DomNode)
                       | some (.seq xs) => asNodes .attributeError xs
                       | some _ => .error LmErr.assertionError) with
                | .error e => .error e
                | .ok interfaces =>
                  let lnStr := toString ln
                  let idx? := findInterfaceIndex interfaces lnStr
                  let interface0 :=
                    match idx? with
                    | some i => interfaces.getD i []
                    | none => [("linknumber", DomValue.scalar lnStr)]
                  let interface1 := applyLinkOptions link' interface0
                  let interfaces' :=
                    if interface1.length = 1 then
                      match idx? with
                      | some i => interfaces.eraseIdx i
                      | none => interfaces
                    else
                      match idx? with
                      | some i => interfaces.set i interface1
                      | none => interfaces ++ [interface1]
                  let t' :=
                    if interfaces'.isEmpty ∧ (alistGet? t "interface").isSome then
                      alistErase t "interface"
                    else alistSet t "interface" (.seq (interfaces'.map DomValue.node))
                  .ok (alistSet cfg "totem" (.node t'))
              | none => .error .assertionError
              | some _ => .error .typeError

/-- `LinkManager.update_link` (dom in, dom out; on error the dom is the
state at the raise, which for this operation is always the input). -/
def update_link (cfg : DomNode) (ln : Nat) (options : OptMap) : Option LmErr × DomNode :=
  match update_link_pure cfg ln options with
  | .error e => (some e, cfg)
  | .ok cfg' => (none, cfg')

/-! ### `LinkManager.__upsert_node_addr_impl` and `update_node_addr`

The address canonicalization `utils.IP(addr).ip_address` comes from
`crmsh/utils.py`, which is not among the sources.  Modelled from the
spec: a canonicalized address representation under which equivalent
textual forms of the same address compare equal.  It is abstracted as a
total function `canon : String → String` threaded through the operations;
two addresses are equivalent iff their `canon` images are equal. -/

/-- The `existing_addr_node_map` dict comprehension, one link's nodes. -/
def addLinkAddrs (canon : String → String) : List LinkNode → List (String × Int) →
    List (String × Int)
  | [], m => m
  | nd :: rest, m =>
    addLinkAddrs canon rest (if nd.addr = "" then m else alistSet m (canon nd.addr) nd.nodeid)

def existingAddrMapGo (canon : String → String) : List (Option Link) → List (String × Int) →
    List (String × Int)
  | [], m => m
  | none :: rest, m => existingAddrMapGo canon rest m
  | some lk :: rest, m => existingAddrMapGo canon rest (addLinkAddrs canon lk.nodes m)

def existingAddrMap (canon : String → String) (ls : List (Option Link)) : List (String × Int) :=
  existingAddrMapGo canon ls []

/-- Overwrite the address of the first node with the given nodeid (the
source mutates the object returned by `next(...)`). -/
def setNodeAddr (nid : Int) (addr : String) : List LinkNode → List LinkNode
  | [] => []
  | n :: rest =>
    if n.nodeid = nid then { n with addr := addr } :: rest
    else n :: setNodeAddr nid addr rest

/-- The validation loop of `__upsert_node_addr_impl`: walks the
`node_addresses` pairs in order, updating the derived link nodes and the
address map incrementally so later pairs see earlier updates.  It only
touches derived data; the dom is untouched until the loop completes. -/
def upsertCheckLoop (canon : String → String) (nodes : List LinkNode)
    (m : List (String × Int)) : List (Int × String) → Except LmErr Unit
  | [] => .ok ()
  | (nodeid, addr) :: rest =>
    match nodes.find? (fun n => n.nodeid == nodeid) with
    | none => .error (.unknownNodeid nodeid)
    | some found =>
      if found.addr = "" ∨ canon found.addr ≠ canon addr then
        match alistGet? m (canon addr) with
        | some existing => .error (.duplicatedNodeAddress addr nodeid existing)
        | none =>
          upsertCheckLoop canon (setNodeAddr nodeid addr nodes)
            (alistSet m (canon addr) found.nodeid) rest
      else
        upsertCheckLoop canon (setNodeAddr nodeid addr nodes)
          (alistSet m (canon addr) found.nodeid) rest

/-- The write-back loop of `__upsert_node_addr_impl`: sets
`node[f'ring{ln}_addr']` for every node whose id is in the map, in node
list order; an unparseable nodeid aborts mid-loop leaving the processed
prefix written (in-place dict mutation in the source). -/
def writeAddrLoop (ln : Nat) (na : List (Int × String)) : List DomNode →
    Option LmErr × List DomNode
  | [] => (none, [])
  | n :: rest =>
    match nodeIdOf n with
    | .error e => (some e, n :: rest)
    | .ok nid =>
      let n' :=
        match alistGet? na nid with
        | some addr => alistSet n (ringAddrKey ln) (DomValue.scalar addr)
        | none => n
      let r := writeAddrLoop ln na rest
      (r.1, n' :: r.2)

/-- `LinkManager.__upsert_node_addr_impl`. -/
def upsert_node_addr_impl (canon : String → String) (cfg : DomNode)
    (ls : List (Option Link)) (ln : Nat) (na : List (Int × String)) :
    Option LmErr × DomNode :=
  match ls.get? ln with
  | some (some link) =>
    match upsertCheckLoop canon link.nodes (existingAddrMap canon ls) na with
    | .error e => (some e, cfg)
    | .ok _ =>
      match alistGet? cfg "nodelist" with
      | some (.node nl) =>
        match alistGet? nl "node" with
        | some (.seq xs) =>
          match asNodes .assertionError xs with
          | .error e => (some e, cfg)
          | .ok ns =>
            let r := writeAddrLoop ln na ns
            (r.1, alistSet cfg "nodelist" (.node (alistSet nl "node" (.seq (r.2.map DomValue.node)))))
        | some _ => (some .assertionError, cfg)
        | none => (some .keyError, cfg)
      | some _ => (some .typeError, cfg)
      | none => (some .keyError, cfg)
  | _ => (some .attributeError, cfg)

/-- `LinkManager.update_node_addr`. -/
def update_node_addr (canon : String → String) (cfg : DomNode) (ln : Nat)
    (na : List (Int × String)) : Option LmErr × DomNode :=
  match links cfg with
  | .error e => (some e, cfg)
  | .ok ls =>
    if ln ≥ KNET_LINK_NUM_LIMIT then (some (.linkDoesNotExist ln), cfg)
    else
      match ls.get? ln with
      | none => (some .indexError, cfg)
      | some none => (some (.linkDoesNotExist ln), cfg)
      | some (some _) => upsert_node_addr_impl canon cfg ls ln na

/-! ### `LinkManager.add_link` and `remove_link` -/

/-- `next((i for i, link in enumerate(links) if link is None), -1)`. -/
def firstFreeSlot : List (Option Link) → Option Nat
  | [] => none
  | none :: _ => some 0
  | some _ :: rest => (firstFreeSlot rest).map (· + 1)

/-- `next(x for x in links if x is not None)` (StopIteration when no link
is present). -/
def firstPresent : List (Option Link) → Option Link
  | [] => none
  | some l :: _ => some l
  | none :: rest => firstPresent rest

/-- `LinkManager.add_link`.  Note the order: the dom is mutated by the
upsert before `update_link` validates `options`. -/
def add_link (canon : String → String) (cfg : DomNode) (na : List (Int × String))
    (options : OptMap) : Option LmErr × DomNode :=
  match links cfg with
  | .error e => (some e, cfg)
  | .ok ls =>
    match firstFreeSlot ls with
    | none => (some .capacityExceeded, cfg)
    | some ff =>
      match firstPresent ls with
      | none => (some .stopIteration, cfg)
      | some l0 =>
        let missing := (l0.nodes.filter fun n => (alistGet? na n.nodeid).isNone).map (·.nodeid)
        if missing ≠ [] then (some (.missingNodes missing), cfg)
        else
          let newLink : Link :=
            { linknumber := (ff : Int), nodes := l0.nodes.map fun n => { n with addr := "" } }
          match upsert_node_addr_impl canon cfg (ls.set ff (some newLink)) ff na with
          | (some e, cfg') => (some e, cfg')
          | (none, cfg') => update_link cfg' ff options

def countPresent : List (Option Link) → Nat
  | [] => 0
  | none :: rest => countPresent rest
  | some _ :: rest => countPresent rest + 1

/-- The `del node[f'ring{ln}_addr']` loop of `remove_link` (KeyError on a
node without the field aborts mid-loop, the processed prefix stays
deleted). -/
def delRingLoop (ln : Nat) : List DomNode → Option LmErr × List DomNode
  | [] => (none, [])
  | n :: rest =>
    match alistGet? n (ringAddrKey ln) with
    | none => (some .keyError, n :: rest)
    | some _ =>
      let r := delRingLoop ln rest
      (r.1, alistErase n (ringAddrKey ln) :: r.2)

/-- The interface filter of `remove_link`
(`int(interface['linknumber']) != linknumber`, evaluated element by
element). -/
def filterInterfaces (ln : Nat) : List DomNode → Except LmErr (List DomNode)
  | [] => .ok []
  | x :: rest =>
    match alistGet? x "linknumber" with
    | none => .error .keyError
    | some (.scalar s) =>
      match parsePyInt s with
      | none => .error .parseValueError
      | some v =>
        match filterInterfaces ln rest with
        | .error e => .error e
        | .ok rest' => .ok (if v = (ln : Int) then rest' else x :: rest')
    | some _ => .error .typeError

def writeNodelist (cfg : DomNode) (nl : DomNode) (ns : List DomNode) : DomNode :=
  alistSet cfg "nodelist" (.node (alistSet nl "node" (.seq (ns.map DomValue.node))))

/-- `LinkManager.remove_link`. -/
def remove_link (cfg : DomNode) (ln : Nat) : Option LmErr × DomNode :=
  match links cfg with
  | .error e => (some e, cfg)
  | .ok ls =>
    if ln ≥ KNET_LINK_NUM_LIMIT then (some (.linkDoesNotExist ln), cfg)
    else
      match ls.get? ln with
      | none => (some .indexError, cfg)
      | some none => (some (.linkDoesNotExist ln), cfg)
      | some (some _) =>
        if countPresent ls ≤ 1 then (some .cannotRemoveLastLink, cfg)
        else
          match alistGet? cfg "nodelist" with
          | some (.node nl) =>
            match alistGet? nl "node" with
            | some (.seq xs) =>
              match asNodes .assertionError xs with
              | .error e => (some e, cfg)
              | .ok ns =>
                match delRingLoop ln ns with
                | (some e, ns') => (some e, writeNodelist cfg nl ns')
                | (none, ns') =>
                  let cfg1 := writeNodelist cfg nl ns'
                  match alistGet? cfg1 "totem" with
                  | some (.node t) =>
                    match alistGet? t "interface" with
                    | none => (none, cfg1)
                    | some (.seq ixs) =>
                      match asNodes .attributeError ixs with
                      | .error e => (some e, cfg1)
                      | .ok interfaces =>
                        match filterInterfaces ln interfaces with
                        | .error e => (some e, cfg1)
                        | .ok xs' =>
                          (none, alistSet cfg1 "totem"
                            (.node (alistSet t "interface" (.seq (xs'.map DomValue.node)))))
                    | some _ => (some .typeError, cfg1)
                  | _ => (some .assertionError, cfg1)
            | some _ => (some .assertionError, cfg)
            | none => (some .keyError, cfg)
          | some _ => (some .typeError, cfg)
          | none => (some .keyError, cfg)

/-! ### Observations -/

/-- Read `dom[a][b]` as a scalar, for observing configurations. -/
def getScalar2 (dom : DomNode) (a b : String) : Option String :=
  match alistGet? dom a with
  | some (.node x) =>
    match alistGet? x b with
    | some (.scalar s) => some s
    | _ => none
  | _ => none

/-- Read `dom['nodelist']['node'][idx][f'ring{ln}_addr']` as a scalar. -/
def nodeRingAddr (cfg : DomNode) (idx : Nat) (ln : Nat) : Option String :=
  match alistGet? cfg "nodelist" with
  | some (.node nl) =>
    match alistGet? nl "node" with
    | some (.seq xs) =>
      match xs.get? idx with
      | some (.node n) =>
        match alistGet? n (ringAddrKey ln) with
        | some (.scalar s) => some s
        | _ => none
      | _ => none
    | _ => none
  | _ => none

/-! ### Migration engine (`crmsh/migration.py`) -/

/-- `migrate_crypto`.  Note that `dom['totem'].get('crypto_hash', None)`
never raises `KeyError`, so the `except KeyError` branch of the source
can only trigger when `totem` itself is absent — and then its own body
`dom['totem']['crypto_hash'] = ...` re-raises the `KeyError`. -/
def migrate_crypto (dom : DomNode) : Except LmErr DomNode :=
  match alistGet? dom "totem" with
  | some (.node t) =>
    match alistGet? t "crypto_hash" with
    | some (.scalar s) =>
      if s = "sha1" then
        .ok (alistSet dom "totem" (.node (alistSet t "crypto_hash" (.scalar "sha256"))))
      else .ok dom
    | _ => .ok dom
  | none => .error .keyError
  | some _ => .error .attributeError

/-- Remove the UDP-only fields of one interface entry and rename
`ringnumber` to `linknumber` (shared by `migrate_udpu` and
`migrate_multicast`). -/
def stripUdpFields (x : DomNode) : DomNode :=
  let x1 := alistErase x "mcastaddr"
  let x2 := alistErase x1 "bindnetaddr"
  let x3 := alistErase x2 "broadcast"
  let x4 := alistErase x3 "ttl"
  match alistGet? x4 "ringnumber" with
  | some rv => alistSet (alistErase x4 "ringnumber") "linknumber" rv
  | none => x4

def stripInterfaceElem : DomValue → Except LmErr DomValue
  | .node n => .ok (.node (stripUdpFields n))
  | _ => .error .attributeError

/-- `dom['quorum'].pop('expected_votes', None)` guarded by
`'quorum' in dom`. -/
def popQuorumExpectedVotes (dom : DomNode) : Except LmErr DomNode :=
  match alistGet? dom "quorum" with
  | none => .ok dom
  | some (.node q) => .ok (alistSet dom "quorum" (.node (alistErase q "expected_votes")))
  | some _ => .error .attributeError

/-- `migrate_udpu`. -/
def migrate_udpu (dom : DomNode) : Except LmErr DomNode :=
  match alistGet? dom "totem" with
  | some (.node t) =>
    let t1 := alistSet t "transport" (.scalar "knet")
    let t2 := alistSet t1 "knet_compression_model" (.scalar "none")
    match alistGet? t2 "interface" with
    | none => popQuorumExpectedVotes (alistSet dom "totem" (.node t2))
    | some (.seq xs) =>
      match mapE stripInterfaceElem xs with
      | .error e => .error e
      | .ok xs' =>
        popQuorumExpectedVotes (alistSet dom "totem" (.node (alistSet t2 "interface" (.seq xs'))))
    | some _ => .error .attributeError
  | none => .error .keyError
  | some _ => .error .typeError

/-- One member of the roster from the cluster information base
(`Cib.nodes()`): numeric id and unique name. -/
structure CibNode : Type where
  node_id : Int
  uname : String

/-- The per-member address extraction of `migrate_multicast`: parse that
member's own copy of the file, list-normalize it, and read each interface
entry's `bindnetaddr` as `ring{i}_addr` (a missing field is the fatal
`KeyError` the spec requires). -/
def fetchedAddressesGo : Nat → List DomValue → Except LmErr (List (String × DomValue))
  | _, [] => .ok []
  | i, x :: rest =>
    match x with
    | .node n =>
      match alistGet? n "bindnetaddr" with
      | none => .error .keyError
      | some v =>
        match fetchedAddressesGo (i + 1) rest with
        | .error e => .error e
        | .ok l => .ok ((ringAddrKey i, v) :: l)
    | _ => .error .typeError

def fetchedAddresses (root : DomNode) : Except LmErr (List (String × DomValue)) :=
  let root := transform_dom_with_list_schema root
  match alistGet? root "totem" with
  | some (.node t) =>
    match alistGet? t "interface" with
    | some (.seq xs) => fetchedAddressesGo 0 xs
    | some _ => .error .typeError
    | none => .error .keyError
  | none => .error .keyError
  | some _ => .error .typeError

/-- `migrate_multicast`.  Modelled from the spec: the external
collaborators — the CIB node-list query and the per-member fetch of each
member's copy of the file (`Cib.nodes()` over `lxml`, and
`parallax.parallax_slurp`, both outside the embedded core) — are injected
as the list `fetched` of members paired with their already-parsed
configuration trees, which is exactly the data the source assembles
before it mutates the dom.  The source stores the numeric `nodeid` as a
Python int in the dom; it is stored here as its decimal string. -/
def migrate_multicast (fetched : List (CibNode × DomNode)) (dom : DomNode) :
    Except LmErr DomNode :=
  match alistGet? dom "totem" with
  | some (.node t) =>
    let t1 := alistSet t "transport" (.scalar "knet")
    let t2 := alistSet t1 "knet_compression_model" (.scalar "none")
    match alistGet? t2 "interface" with
    | some (.seq xs) =>
      match mapE stripInterfaceElem xs with
      | .error e => .error e
      | .ok xs' =>
        let dom1 := alistSet dom "totem" (.node (alistSet t2 "interface" (.seq xs')))
        if (alistGet? dom1 "nodelist").isSome then .error .assertionError
        else
          match mapE (fun (p : CibNode × DomNode) =>
            match fetchedAddresses p.2 with
            | .error e => .error e
            | .ok addrs =>
              .ok (DomValue.node
                ([("nodeid", DomValue.scalar (toString p.1.node_id)),
                  ("name", DomValue.scalar p.1.uname)] ++ addrs))) fetched with
          | .error e => .error e
          | .ok nodelist =>
            popQuorumExpectedVotes
              (alistSet dom1 "nodelist" (.node [("node", DomValue.seq nodelist)]))
    | some _ => .error .attributeError
    | none => .error .keyError
  | none => .error .keyError
  | some _ => .error .typeError

/-- The structural-fingerprint probe of `migrate_transport`:
`dom['totem']['interface'][0]['bindnetaddr']` inside `try ... except
KeyError: pass`.  Its value is discarded; only a non-KeyError crash
(empty list, non-dict element) escapes. -/
def fingerprintCheck (t : DomNode) : Except LmErr Unit :=
  match alistGet? t "interface" with
  | none => .ok ()
  | some (.node _) => .ok ()
  | some (.scalar s) => if s.isEmpty then .error .indexError else .error .typeError
  | some (.seq []) => .error .indexError
  | some (.seq (x :: _)) =>
    match x with
    | .node _ => .ok ()
    | _ => .error .typeError

/-- `migrate_transport`. -/
def migrate_transport (fetched : List (CibNode × DomNode)) (dom : DomNode) :
    Except LmErr DomNode :=
  match alistGet? dom "totem" with
  | some (.node t) =>
    match alistGet? t "transport" with
    | some (.scalar "knet") => .ok dom
    | some (.scalar "udpu") => migrate_udpu dom
    | some (.scalar "udp") => migrate_multicast fetched dom
    | _ =>
      match fingerprintCheck t with
      | .error e => .error e
      | .ok _ =>
        if (alistGet? dom "nodelist").isNone then migrate_multicast fetched dom
        else .ok dom
  | none => .error .keyError
  | some _ => .error .attributeError

/-! ### Concrete configurations used by the individual claims -/

/-- A knet configuration with no nodelist section. -/
def cfgC1 : DomNode := [("totem", DomValue.node [("transport", DomValue.scalar "knet")])]

/-- A knet configuration with two members on one link. -/
def cfgC1w : DomNode :=
  [("totem", DomValue.node [("transport", DomValue.scalar "knet")]),
   ("nodelist", DomValue.node [("node", DomValue.seq
     [DomValue.node [("nodeid", DomValue.scalar "1"), ("name", DomValue.scalar "alice"),
                     ("ring0_addr", DomValue.scalar "10.0.0.1")],
      DomValue.node [("nodeid", DomValue.scalar "2"), ("name", DomValue.scalar "bob"),
                     ("ring0_addr", DomValue.scalar "10.0.0.2")]])])]

/-- Two members, one link: the starting point for the `add_link`
atomicity counterexample. -/
def cfgC3a : DomNode :=
  [("totem", DomValue.node [("transport", DomValue.scalar "knet")]),
   ("nodelist", DomValue.node [("node", DomValue.seq
     [DomValue.node [("nodeid", DomValue.scalar "1"), ("name", DomValue.scalar "alice"),
                     ("ring0_addr", DomValue.scalar "10.0.0.1")],
      DomValue.node [("nodeid", DomValue.scalar "2"), ("name", DomValue.scalar "bob"),
                     ("ring0_addr", DomValue.scalar "10.0.0.2")]])])]

/-- One member, two links, and an interface-options record carrying no
`linknumber` field: the starting point for the `remove_link` atomicity
counterexample. -/
def cfgC3b : DomNode :=
  [("totem", DomValue.node [("transport", DomValue.scalar "knet"),
     ("interface", DomValue.seq
       [DomValue.node [("knet_ping_interval", DomValue.scalar "10")]])]),
   ("nodelist", DomValue.node [("node", DomValue.seq
     [DomValue.node [("nodeid", DomValue.scalar "1"), ("name", DomValue.scalar "alice"),
                     ("ring0_addr", DomValue.scalar "10.0.0.1"),
                     ("ring1_addr", DomValue.scalar "10.0.1.1")]])])]

/-- Two members, one link (for the `update_node_addr` witnesses). -/
def cfgC4 : DomNode :=
  [("totem", DomValue.node [("transport", DomValue.scalar "knet")]),
   ("nodelist", DomValue.node [("node", DomValue.seq
     [DomValue.node [("nodeid", DomValue.scalar "1"), ("name", DomValue.scalar "alice"),
                     ("ring0_addr", DomValue.scalar "10.0.0.1")],
      DomValue.node [("nodeid", DomValue.scalar "2"), ("name", DomValue.scalar "bob"),
                     ("ring0_addr", DomValue.scalar "10.0.0.2")]])])]

/-- One member that occupies all eight link slots. -/
def cfgC5full : DomNode :=
  [("totem", DomValue.node [("transport", DomValue.scalar "knet")]),
   ("nodelist", DomValue.node [("node", DomValue.seq
     [DomValue.node [("nodeid", DomValue.scalar "1"), ("name", DomValue.scalar "alice"),
                     ("ring0_addr", DomValue.scalar "10.0.0.1"),
                     ("ring1_addr", DomValue.scalar "10.0.1.1"),
                     ("ring2_addr", DomValue.scalar "10.0.2.1"),
                     ("ring3_addr", DomValue.scalar "10.0.3.1"),
                     ("ring4_addr", DomValue.scalar "10.0.4.1"),
                     ("ring5_addr", DomValue.scalar "10.0.5.1"),
                     ("ring6_addr", DomValue.scalar "10.0.6.1"),
                     ("ring7_addr", DomValue.scalar "10.0.7.1")]])])]

/-- Two members, one link (for the `add_link` duplicate-address part of
the C5 counterexample and the C5 witness). -/
def cfgC5 : DomNode :=
  [("totem", DomValue.node [("transport", DomValue.scalar "knet")]),
   ("nodelist", DomValue.node [("node", DomValue.seq
     [DomValue.node [("nodeid", DomValue.scalar "1"), ("name", DomValue.scalar "alice"),
                     ("ring0_addr", DomValue.scalar "10.0.0.1")],
      DomValue.node [("nodeid", DomValue.scalar "2"), ("name", DomValue.scalar "bob"),
                     ("ring0_addr", DomValue.scalar "10.0.0.2")]])])]

/-- One member, one link (for the `remove_link` witness). -/
def cfgC6 : DomNode :=
  [("totem", DomValue.node [("transport", DomValue.scalar "knet")]),
   ("nodelist", DomValue.node [("node", DomValue.seq
     [DomValue.node [("nodeid", DomValue.scalar "1"), ("name", DomValue.scalar "alice"),
                     ("ring0_addr", DomValue.scalar "10.0.0.1")]])])]

/-- A legacy configuration with no declared transport whose first
interface entry carries `bindnetaddr`, and no node list. -/
def domC7 : DomNode :=
  [("totem", DomValue.node [("interface", DomValue.seq
     [DomValue.node [("bindnetaddr", DomValue.scalar "192.168.0.0")]])])]

/-- The injected reconstruction data for C7: one CIB member whose fetched
file copy carries a bind address. -/
def fetchedC7 : List (CibNode × DomNode) :=
  [(⟨1, "alice"⟩,
    [("totem", DomValue.node [("interface", DomValue.seq
       [DomValue.node [("bindnetaddr", DomValue.scalar "192.168.0.1")]])])])]

/-- `domC7` with a node list section added (for the C7 witness). -/
def domC7n : DomNode :=
  [("totem", DomValue.node [("interface", DomValue.seq
     [DomValue.node [("bindnetaddr", DomValue.scalar "192.168.0.0")]])]),
   ("nodelist", DomValue.node [("node", DomValue.seq
     [DomValue.node [("nodeid", DomValue.scalar "1"), ("name", DomValue.scalar "alice"),
                     ("ring0_addr", DomValue.scalar "192.168.0.1")]])])]

/-- One member using the same address on two different links (for the C8
witness). -/
def cfgC8 : DomNode :=
  [("totem", DomValue.node [("transport", DomValue.scalar "knet")]),
   ("nodelist", DomValue.node [("node", DomValue.seq
     [DomValue.node [("nodeid", DomValue.scalar "1"), ("name", DomValue.scalar "alice"),
                     ("ring0_addr", DomValue.scalar "10.0.0.1"),
                     ("ring1_addr", DomValue.scalar "10.0.1.1")]])])]

/-- A udpu configuration (for the C9 witness). -/
def domC9u : DomNode :=
  [("totem", DomValue.node [("transport", DomValue.scalar "udpu"),
     ("interface", DomValue.seq
       [DomValue.node [("ringnumber", DomValue.scalar "0"),
                       ("bindnetaddr", DomValue.scalar "10.0.0.0"),
                       ("mcastaddr", DomValue.scalar "239.0.0.1"),
                       ("ttl", DomValue.scalar "1")]])]),
   ("quorum", DomValue.node [("expected_votes", DomValue.scalar "2")])]

/-- A multicast configuration and its injected reconstruction data (for
the C9 witness). -/
def domC9m : DomNode :=
  [("totem", DomValue.node [("transport", DomValue.scalar "udp"),
     ("interface", DomValue.seq
       [DomValue.node [("bindnetaddr", DomValue.scalar "192.168.0.0"),
                       ("mcastaddr", DomValue.scalar "239.0.0.1")]])])]

def fetchedC9 : List (CibNode × DomNode) :=
  [(⟨1, "alice"⟩,
    [("totem", DomValue.node [("interface", DomValue.seq
       [DomValue.node [("bindnetaddr", DomValue.scalar "192.168.0.1")]])])])]

/-- A small tree for the `_raw_set` witness. -/
def domC10 : DomNode := [("a", DomValue.node [("b", DomValue.scalar "old")])]

/-- MARKER-DEFS-END -/
theorem alistGet?_set_self {κ α : Type} [DecidableEq κ] (l : List (κ × α)) (k : κ) (v : α) :
    alistGet? (alistSet l k v) k = some v := by
  induction l with
  | nil => simp [alistGet?, alistSet]
  | cons p rest ih =>
    obtain ⟨k', v'⟩ := p
    by_cases h : k' = k
    · simp [alistGet?, alistSet, h]
    · simp [alistGet?, alistSet, h, ih]

theorem alistGet?_set_ne {κ α : Type} [DecidableEq κ] (l : List (κ × α)) (k k' : κ) (v : α)
    (h : k ≠ k') : alistGet? (alistSet l k v) k' = alistGet? l k' := by
  induction l with
  | nil => simp [alistGet?, alistSet, h]
  | cons p rest ih =>
    obtain ⟨k0, v0⟩ := p
    by_cases h0 : k0 = k
    · subst h0
      simp [alistGet?, alistSet, h]
    · simp only [alistSet, if_neg h0]
      by_cases h1 : k0 = k'
      · simp [alistGet?, h1]
      · simp [alistGet?, h1, ih]

theorem alistGet?_erase_ne {κ α : Type} [DecidableEq κ] (l : List (κ × α)) (k k' : κ)
    (h : k ≠ k') : alistGet? (alistErase l k) k' = alistGet? l k' := by
  induction l with
  | nil => simp [alistErase]
  | cons p rest ih =>
    obtain ⟨k0, v0⟩ := p
    by_cases h0 : k0 = k
    · subst h0
      simp [alistGet?, alistErase, h]
    · simp only [alistErase, if_neg h0]
      by_cases h1 : k0 = k'
      · simp [alistGet?, h1]
      · simp [alistGet?, h1, ih]

theorem mapE_ok_length {α β : Type} (f : α → Except LmErr β) (l : List α) (l' : List β)
    (h : mapE f l = .ok l') : l'.length = l.length := by
  induction l generalizing l' with
  | nil =>
    simp only [mapE] at h
    cases h
    rfl
  | cons a as ih =>
    simp only [mapE] at h
    cases hfa : f a with
    | error e => rw [hfa] at h; exact absurd h (by simp)
    | ok b =>
      rw [hfa] at h
      cases hrest : mapE f as with
      | error e => rw [hrest] at h; exact absurd h (by simp)
      | ok bs =>
        rw [hrest] at h
        cases h
        simp [ih bs hrest]

theorem mapE_ok_mem {α β : Type} (f : α → Except LmErr β) (l : List α) (l' : List β)
    (h : mapE f l = .ok l') : ∀ a ∈ l, ∃ b, f a = .ok b := by
  induction l generalizing l' with
  | nil => intro a ha; cases ha
  | cons a as ih =>
    simp only [mapE] at h
    cases hfa : f a with
    | error e => rw [hfa] at h; exact absurd h (by simp)
    | ok b =>
      rw [hfa] at h
      cases hrest : mapE f as with
      | error e => rw [hrest] at h; exact absurd h (by simp)
      | ok bs =>
        intro x hx
        rcases List.mem_cons.mp hx with rfl | hx
        · exact ⟨b, hfa⟩
        · exact ih bs hrest x hx

theorem mapE_ok_get {α β : Type} (f : α → Except LmErr β) (l : List α) (l' : List β)
    (h : mapE f l = .ok l') :
    ∀ i, match l.get? i, l'.get? i with
         | some a, some b => f a = .ok b
         | none, none => True
         | _, _ => False := by
  induction l generalizing l' with
  | nil =>
    simp only [mapE] at h
    cases h
    intro i
    simp
  | cons a as ih =>
    simp only [mapE] at h
    cases hfa : f a with
    | error e => rw [hfa] at h; exact absurd h (by simp)
    | ok b =>
      rw [hfa] at h
      cases hrest : mapE f as with
      | error e => rw [hrest] at h; exact absurd h (by simp)
      | ok bs =>
        rw [hrest] at h
        cases h
        intro i
        cases i with
        | zero => simpa using hfa
        | succ n => simpa using ih bs hrest n

theorem mapE_error_exists {α β : Type} (f : α → Except LmErr β) (l : List α) (e : LmErr)
    (h : mapE f l = .error e) : ∃ a ∈ l, f a = .error e := by
  induction l with
  | nil => simp [mapE] at h
  | cons a as ih =>
    simp only [mapE] at h
    cases hfa : f a with
    | error e' =>
      rw [hfa] at h
      cases h
      exact ⟨a, by simp, hfa⟩
    | ok b =>
      rw [hfa] at h
      cases hrest : mapE f as with
      | error e' =>
        rw [hrest] at h
        cases h
        obtain ⟨x, hx, hfx⟩ := ih hrest
        exact ⟨x, by simp [hx], hfx⟩
      | ok bs => rw [hrest] at h; exact absurd h (by simp)

/-! ### C10: `_raw_set` ignores the index outside list-capable paths -/

theorem rawSetGo_chain (keys : List String) :
    ∀ (node : DomNode) (stack : List String) (lastKey : String) (value : DomValue) (i : Nat),
    chainOK node stack keys lastKey = true →
    rawSetGo node keys lastKey value i stack = rawSetGo node keys lastKey value 0 stack ∧
    ∃ d, rawSetGo node keys lastKey value 0 stack = .ok d ∧
         chainLookup d keys lastKey = some value := by
  induction keys with
  | nil =>
    intro node stack lastKey value i h
    simp only [chainOK] at h
    simp only [rawSetGo, rawSetFinal, chainLookup]
    cases hv : alistGet? node lastKey with
    | none => rw [hv] at h; exact absurd h (by simp)
    | some v =>
      rw [hv] at h
      cases v with
      | scalar s =>
        exact ⟨rfl, _, rfl, alistGet?_set_self node lastKey value⟩
      | node es =>
        exact ⟨rfl, _, rfl, alistGet?_set_self node lastKey value⟩
      | seq es => exact absurd h (by simp)
  | cons k rest ih =>
    intro node stack lastKey value i h
    simp only [chainOK] at h
    cases hv : alistGet? node k with
    | none => rw [hv] at h; exact absurd h (by simp)
    | some v =>
      rw [hv] at h
      cases v with
      | scalar s => exact absurd h (by simp)
      | seq es => exact absurd h (by simp)
      | node next =>
        rw [Bool.and_eq_true, Bool.not_eq_eq_eq_not, Bool.not_true, decide_eq_false_iff_not] at h
        obtain ⟨hmem, hchain⟩ := h
        obtain ⟨heq, d, hok, hlook⟩ := ih next (stack ++ [k]) lastKey value i hchain
        have hcond : ∀ j : Nat, ¬(j > 0 ∧ stack ++ [k] ∈ COROSYNC_KNOWN_SEC_NAMES_WITH_LIST) :=
          fun j hc => hmem hc.2
        simp only [rawSetGo, hv, if_neg (hcond i), if_neg (hcond 0), heq, hok]
        refine ⟨trivial, alistSet node k (.node d), rfl, ?_⟩
        simp only [chainLookup, alistGet?_set_self]
        exact hlook

/-- C10: `ConfParser.set` (`_raw_set`) with `index > 0` on a path whose
intermediate nodes are all single section nodes outside the fixed
list-capable set does not fail: the index is silently ignored during the
descent (the result equals the `index = 0` result), and when the final
key already holds a scalar or a single node the value is overwritten
regardless of the index. -/
theorem raw_set_ignores_index_outside_list_paths
    (dom : DomNode) (keys : List String) (lastKey : String) (value : DomValue) (i : Nat)
    (h : chainOK dom [] keys lastKey = true) :
    rawSet dom (keys ++ [lastKey]) value i = rawSet dom (keys ++ [lastKey]) value 0 ∧
    ∃ d, rawSet dom (keys ++ [lastKey]) value i = .ok d ∧
         chainLookup d keys lastKey = some value := by
  obtain ⟨heq, d, hok, hlook⟩ := rawSetGo_chain keys dom [] lastKey value i h
  have hne : keys ++ [lastKey] ≠ [] := by simp
  have hlast : (keys ++ [lastKey]).getLast? = some lastKey := by
    simp [List.getLast?_concat]
  have hdrop : (keys ++ [lastKey]).dropLast = keys := by
    simp [List.dropLast_concat]
  constructor
  · cases hk : keys ++ [lastKey] with
    | nil => exact absurd hk hne
    | cons a l =>
      simp only [rawSet, ← hk, hlast, hdrop]
      exact heq
  · refine ⟨d, ?_, hlook⟩
    cases hk : keys ++ [lastKey] with
    | nil => exact absurd hk hne
    | cons a l =>
      simp only [rawSet, ← hk, hlast, hdrop]
      rw [heq, hok]

/-- Witness for C10 at a concrete input: `set('a.b', index=5)` on a tree
where `a` is a single node and `a.b` a scalar succeeds and overwrites. -/
theorem raw_set_ignores_index_witness :
    chainOK domC10 [] ["a"] "b" = true ∧
    rawSet domC10 ["a", "b"] (DomValue.scalar "new") 5 =
      rawSet domC10 ["a", "b"] (DomValue.scalar "new") 0 ∧
    ∃ d, rawSet domC10 ["a", "b"] (DomValue.scalar "new") 5 = .ok d ∧
         chainLookup d ["a"] "b" = some (DomValue.scalar "new") := by
  refine ⟨by decide, ?_⟩
  have h := raw_set_ignores_index_outside_list_paths domC10 ["a"] "b"
    (DomValue.scalar "new") 5 (by decide)
  obtain ⟨heq, d, hok, hlook⟩ := h
  exact ⟨heq, d, hok, hlook⟩

/-! ### C2: `migrate_crypto` -/

/-- C2 (code bug): on a tree whose `totem` section has no `crypto_hash`
key, `migrate_crypto` leaves the tree unchanged — `crypto_hash` is *not*
set to 'sha256', because `dict.get` never raises the `KeyError` the
source's `except` branch waits for.  The other two cases behave as
specified: an explicit 'sha1' becomes 'sha256' and any other explicit
value is untouched. -/
theorem migrate_crypto_absent_hash_left_unset :
    (migrate_crypto [("totem", DomValue.node [("secauth", DomValue.scalar "on")])] =
       .ok [("totem", DomValue.node [("secauth", DomValue.scalar "on")])]) ∧
    (getScalar2 [("totem", DomValue.node [("secauth", DomValue.scalar "on")])]
       "totem" "crypto_hash" = none) ∧
    (migrate_crypto [("totem", DomValue.node [("crypto_hash", DomValue.scalar "sha1")])] =
       .ok [("totem", DomValue.node [("crypto_hash", DomValue.scalar "sha256")])]) ∧
    (migrate_crypto [("totem", DomValue.node [("crypto_hash", DomValue.scalar "md5")])] =
       .ok [("totem", DomValue.node [("crypto_hash", DomValue.scalar "md5")])]) :=
  ⟨rfl, rfl, rfl, rfl⟩

/-! ### C9: both transport migrations set `knet_compression_model` -/

theorem getScalar2_set_other (dom : DomNode) (k : String) (v : DomValue) (b : String)
    (h : k ≠ "totem") :
    getScalar2 (alistSet dom k v) "totem" b = getScalar2 dom "totem" b := by
  simp [getScalar2, alistGet?_set_ne dom k "totem" v h]

theorem popQuorum_getScalar2_totem (dom dom' : DomNode) (b : String)
    (h : popQuorumExpectedVotes dom = .ok dom') :
    getScalar2 dom' "totem" b = getScalar2 dom "totem" b := by
  unfold popQuorumExpectedVotes at h
  cases hq : alistGet? dom "quorum" with
  | none => rw [hq] at h; cases h; rfl
  | some v =>
    rw [hq] at h
    cases v with
    | scalar s => exact absurd h (by simp)
    | seq es => exact absurd h (by simp)
    | node q =>
      simp only [Except.ok.injEq] at h
      subst h
      exact getScalar2_set_other dom "quorum" _ b (by decide)

theorem getScalar2_totem_set (dom : DomNode) (t' : DomNode) (b : String) :
    getScalar2 (alistSet dom "totem" (.node t')) "totem" b =
      (match alistGet? t' b with
       | some (.scalar s) => some s
       | _ => none) := by
  simp [getScalar2, alistGet?_set_self]

/-- C9: `migrate_udpu` and `migrate_multicast` both rewrite
`totem.transport` to 'knet' and additionally always set
`totem.knet_compression_model` to 'none'. -/
theorem migrate_transports_set_compression_model :
    (∀ dom dom', migrate_udpu dom = .ok dom' →
       getScalar2 dom' "totem" "transport" = some "knet" ∧
       getScalar2 dom' "totem" "knet_compression_model" = some "none") ∧
    (∀ fetched dom dom', migrate_multicast fetched dom = .ok dom' →
       getScalar2 dom' "totem" "transport" = some "knet" ∧
       getScalar2 dom' "totem" "knet_compression_model" = some "none") := by
  have hcomp : ∀ t : DomNode,
      alistGet? (alistSet (alistSet t "transport" (.scalar "knet"))
        "knet_compression_model" (.scalar "none")) "knet_compression_model" =
        some (.scalar "none") := fun t => alistGet?_set_self _ _ _
  have htrans : ∀ t : DomNode,
      alistGet? (alistSet (alistSet t "transport" (.scalar "knet"))
        "knet_compression_model" (.scalar "none")) "transport" =
        some (.scalar "knet") := by
    intro t
    rw [alistGet?_set_ne _ _ _ _ (by decide)]
    exact alistGet?_set_self _ _ _
  constructor
  · intro dom dom' h
    unfold migrate_udpu at h
    cases ht : alistGet? dom "totem" with
    | none => rw [ht] at h; exact absurd h (by simp)
    | some v =>
      rw [ht] at h
      cases v with
      | scalar s => exact absurd h (by simp)
      | seq es => exact absurd h (by simp)
      | node t =>
        simp only at h
        cases hi : alistGet? (alistSet (alistSet t "transport" (.scalar "knet"))
            "knet_compression_model" (.scalar "none")) "interface" with
        | none =>
          rw [hi] at h
          have h1 := popQuorum_getScalar2_totem _ _ "transport" h
          have h2 := popQuorum_getScalar2_totem _ _ "knet_compression_model" h
          rw [h1, h2, getScalar2_totem_set, getScalar2_totem_set, hcomp, htrans]
          exact ⟨rfl, rfl⟩
        | some v' =>
          rw [hi] at h
          cases v' with
          | scalar s => exact absurd h (by simp)
          | node es => exact absurd h (by simp)
          | seq xs =>
            simp only at h
            cases hm : mapE stripInterfaceElem xs with
            | error e => rw [hm] at h; exact absurd h (by simp)
            | ok xs' =>
              rw [hm] at h
              simp only at h
              have h1 := popQuorum_getScalar2_totem _ _ "transport" h
              have h2 := popQuorum_getScalar2_totem _ _ "knet_compression_model" h
              rw [h1, h2, getScalar2_totem_set, getScalar2_totem_set]
              rw [alistGet?_set_ne _ "interface" "transport" _ (by decide),
                  alistGet?_set_ne _ "interface" "knet_compression_model" _ (by decide)]
              rw [hcomp, htrans]
              exact ⟨rfl, rfl⟩
  · intro fetched dom dom' h
    unfold migrate_multicast at h
    cases ht : alistGet? dom "totem" with
    | none => rw [ht] at h; exact absurd h (by simp)
    | some v =>
      rw [ht] at h
      cases v with
      | scalar s => exact absurd h (by simp)
      | seq es => exact absurd h (by simp)
      | node t =>
        simp only at h
        cases hi : alistGet? (alistSet (alistSet t "transport" (.scalar "knet"))
            "knet_compression_model" (.scalar "none")) "interface" with
        | none => rw [hi] at h; exact absurd h (by simp)
        | some v' =>
          rw [hi] at h
          cases v' with
          | scalar s => exact absurd h (by simp)
          | node es => exact absurd h (by simp)
          | seq xs =>
            simp only at h
            cases hm : mapE stripInterfaceElem xs with
            | error e => rw [hm] at h; exact absurd h (by simp)
            | ok xs' =>
              rw [hm] at h
              simp only at h
              by_cases hnl : (alistGet? (alistSet dom "totem"
                  (.node (alistSet (alistSet (alistSet t "transport" (.scalar "knet"))
                    "knet_compression_model" (.scalar "none")) "interface" (.seq xs'))))
                  "nodelist").isSome
              · rw [if_pos hnl] at h; exact absurd h (by simp)
              · rw [if_neg hnl] at h
                cases hml : mapE (fun (p : CibNode × DomNode) =>
                    match fetchedAddresses p.2 with
                    | .error e => Except.error e
                    | .ok addrs =>
                      Except.ok (DomValue.node
                        ([("nodeid", DomValue.scalar (toString p.1.node_id)),
                          ("name", DomValue.scalar p.1.uname)] ++ addrs))) fetched with
                | error e => rw [hml] at h; exact absurd h (by simp)
                | ok nodelist =>
                  rw [hml] at h
                  simp only at h
                  have h1 := popQuorum_getScalar2_totem _ _ "transport" h
                  have h2 := popQuorum_getScalar2_totem _ _ "knet_compression_model" h
                  rw [h1, h2]
                  rw [getScalar2_set_other _ "nodelist" _ "transport" (by decide),
                      getScalar2_set_other _ "nodelist" _ "knet_compression_model" (by decide)]
                  rw [getScalar2_totem_set, getScalar2_totem_set]
                  rw [alistGet?_set_ne _ "interface" "transport" _ (by decide),
                      alistGet?_set_ne _ "interface" "knet_compression_model" _ (by decide)]
                  rw [hcomp, htrans]
                  exact ⟨rfl, rfl⟩

/-- Witness for C9: a concrete udpu migration and a concrete multicast
migration, both ending with `knet_compression_model = 'none'`. -/
theorem migrate_transports_set_compression_model_witness :
    (∃ d, migrate_udpu domC9u = .ok d ∧
       getScalar2 d "totem" "transport" = some "knet" ∧
       getScalar2 d "totem" "knet_compression_model" = some "none") ∧
    (∃ d, migrate_multicast fetchedC9 domC9m = .ok d ∧
       getScalar2 d "totem" "transport" = some "knet" ∧
       getScalar2 d "totem" "knet_compression_model" = some "none") := by
  have h1 : migrate_udpu domC9u = .ok ((migrate_udpu domC9u).toOption.getD []) := rfl
  have h2 : migrate_multicast fetchedC9 domC9m =
      .ok ((migrate_multicast fetchedC9 domC9m).toOption.getD []) := rfl
  exact ⟨⟨_, h1, migrate_transports_set_compression_model.1 domC9u _ h1⟩,
         ⟨_, h2, migrate_transports_set_compression_model.2 fetchedC9 domC9m _ h2⟩⟩

/-! ### C7: `migrate_transport` without a declared transport -/

/-- Counterexample for C7 as stated: `domC7` has no declared transport and
its *first interface entry carries `bindnetaddr`*, yet `migrate_transport`
is not a no-op — because there is no node list, the multicast
reconstruction path runs and rewrites the transport to knet.  The
fingerprint probe's result is discarded by the source. -/
theorem migrate_transport_fingerprint_counterexample :
    (∃ d, migrate_transport fetchedC7 domC7 = .ok d ∧
          getScalar2 d "totem" "transport" = some "knet") ∧
    migrate_transport fetchedC7 domC7 ≠ .ok domC7 := by
  constructor
  · exact ⟨_, rfl, rfl⟩
  · intro h
    have h2 := congrArg (fun r : Except LmErr DomNode =>
      match r with
      | Except.ok d => getScalar2 d "totem" "transport"
      | Except.error _ => none) h
    simp only at h2
    exact absurd h2 (by decide)

/-- C7 as amended: on a tree whose `totem` section is a node with no
`transport` key, and whose interface value does not crash the discarded
fingerprint probe, `migrate_transport` ignores the probe's outcome
entirely: it runs the multicast reconstruction path iff the node list
section is absent, and is a no-op iff it is present. -/
theorem migrate_transport_no_transport_dispatch
    (fetched : List (CibNode × DomNode)) (dom : DomNode) (t : DomNode)
    (ht : alistGet? dom "totem" = some (.node t))
    (htr : alistGet? t "transport" = none)
    (hfp : fingerprintCheck t = .ok ()) :
    ((alistGet? dom "nodelist").isNone = true →
       migrate_transport fetched dom = migrate_multicast fetched dom) ∧
    ((alistGet? dom "nodelist").isSome = true →
       migrate_transport fetched dom = .ok dom) := by
  unfold migrate_transport
  rw [ht]
  simp only [htr, hfp]
  cases hnl : alistGet? dom "nodelist" with
  | none => exact ⟨fun _ => by simp, fun hs => by simp at hs⟩
  | some v => exact ⟨fun hn => by simp at hn, fun _ => by simp⟩

/-- Witness for C7 at concrete inputs: without a node list the multicast
path runs, with one the call is a no-op. -/
theorem migrate_transport_no_transport_dispatch_witness :
    migrate_transport fetchedC7 domC7 = migrate_multicast fetchedC7 domC7 ∧
    migrate_transport fetchedC7 domC7n = .ok domC7n :=
  ⟨(migrate_transport_no_transport_dispatch fetchedC7 domC7 _ rfl rfl rfl).1 rfl,
   (migrate_transport_no_transport_dispatch fetchedC7 domC7n _ rfl rfl rfl).2 rfl⟩

/-! ### C1: shape of `links()` -/

theorem mergeLinkOptionsGo_ok_shape (dict : List (Int × DomNode)) :
    ∀ (base : List (Option Link)) (i : Nat) (ls : List (Option Link)),
    mergeLinkOptionsGo dict i base = .ok ls →
    ls.length = base.length ∧ ∀ j, ls.get? j = some none ↔ base.get? j = some none := by
  intro base
  induction base with
  | nil =>
    intro i ls h
    simp only [mergeLinkOptionsGo] at h
    cases h
    exact ⟨rfl, fun j => Iff.rfl⟩
  | cons hd rest ih =>
    intro i ls h
    cases hd with
    | none =>
      simp only [mergeLinkOptionsGo] at h
      cases hrec : mergeLinkOptionsGo dict (i + 1) rest with
      | error e => rw [hrec] at h; exact absurd h (by simp)
      | ok rest' =>
        rw [hrec] at h
        cases h
        obtain ⟨hlen, hiff⟩ := ih (i + 1) rest' hrec
        refine ⟨by simp [hlen], fun j => ?_⟩
        cases j with
        | zero => simp
        | succ n => simpa using hiff n
    | some link =>
      simp only [mergeLinkOptionsGo] at h
      have core : ∀ link' rest', mergeLinkOptionsGo dict (i + 1) rest = .ok rest' →
          ls = some link' :: rest' →
          ls.length = (some link :: rest).length ∧
          ∀ j, ls.get? j = some none ↔ (some link :: rest).get? j = some none := by
        intro link' rest' hrec hls
        subst hls
        obtain ⟨hlen, hiff⟩ := ih (i + 1) rest' hrec
        refine ⟨by simp [hlen], fun j => ?_⟩
        cases j with
        | zero => simp
        | succ n => simpa using hiff n
      cases hd2 : alistGet? dict (Int.ofNat i) with
      | none =>
        rw [hd2] at h
        simp only at h
        cases hrec : mergeLinkOptionsGo dict (i + 1) rest with
        | error e => rw [hrec] at h; exact absurd h (by simp)
        | ok rest' =>
          rw [hrec] at h
          cases h
          exact core link rest' hrec rfl
      | some x =>
        rw [hd2] at h
        simp only at h
        cases hl : link.loadOptionsDom x with
        | error e => rw [hl] at h; exact absurd h (by simp)
        | ok link' =>
          rw [hl] at h
          cases hrec : mergeLinkOptionsGo dict (i + 1) rest with
          | error e => rw [hrec] at h; exact absurd h (by simp)
          | ok rest' =>
            rw [hrec] at h
            cases h
            exact core link' rest' hrec rfl

theorem slotLink_ok_none_iff (n0 : DomNode) (tl : List DomNode) (ids : List Int)
    (names : List String) (i : Nat) (r : Option Link)
    (h : slotLink (n0 :: tl) ids names i = .ok r) :
    r = none ↔ alistGet? n0 (ringAddrKey i) = none := by
  simp only [slotLink] at h
  cases hv : alistGet? n0 (ringAddrKey i) with
  | none =>
    rw [hv] at h
    cases h
    simp
  | some v =>
    rw [hv] at h
    cases hm : mapE (ringAddrOf i) (n0 :: tl) with
    | error e => rw [hm] at h; exact absurd h (by simp)
    | ok addrs =>
      rw [hm] at h
      cases h
      simp

/-- Inversion of a successful `links()` run. -/
theorem links_ok_elim (cfg : DomNode) (ls : List (Option Link)) (h : links cfg = .ok ls) :
    (getNodeEntries cfg = .ok none ∧ ls = []) ∨
    ∃ ns ids names base,
      getNodeEntries cfg = .ok (some ns) ∧ ns ≠ [] ∧
      mapE nodeIdOf ns = .ok ids ∧ mapE nameOf ns = .ok names ∧
      mapE (slotLink ns ids names) (List.range KNET_LINK_NUM_LIMIT) = .ok base ∧
      ls.length = KNET_LINK_NUM_LIMIT ∧
      (∀ j, ls.get? j = some none ↔ base.get? j = some none) := by
  unfold links at h
  cases htt : totem_transport cfg with
  | error e => rw [htt] at h; exact absurd h (by simp)
  | ok t =>
    rw [htt] at h
    simp only at h
    by_cases hk : t = "knet"
    case neg => rw [if_pos hk] at h; exact absurd h (by simp)
    case pos =>
      rw [if_neg (by simp [hk])] at h
      cases hne : getNodeEntries cfg with
      | error e => rw [hne] at h; exact absurd h (by simp)
      | ok o =>
        rw [hne] at h
        cases o with
        | none =>
          simp only at h
          cases h
          exact Or.inl ⟨rfl, rfl⟩
        | some ns =>
          simp only at h
          by_cases hempty : ns.isEmpty
          case pos => rw [if_pos hempty] at h; exact absurd h (by simp)
          case neg =>
            rw [if_neg hempty] at h
            by_cases hid : (ns.all fun n => (alistGet? n "nodeid").isSome) = true
            case neg =>
              rw [if_pos (by simp [hid])] at h
              exact absurd h (by simp)
            case pos =>
              rw [if_neg (by simp [hid])] at h
              by_cases hname : (ns.all fun n => (alistGet? n "name").isSome) = true
              case neg =>
                rw [if_pos (by simp [hname])] at h
                exact absurd h (by simp)
              case pos =>
                rw [if_neg (by simp [hname])] at h
                cases hids : mapE nodeIdOf ns with
                | error e => rw [hids] at h; exact absurd h (by simp)
                | ok ids =>
                  rw [hids] at h
                  simp only at h
                  cases hnames : mapE nameOf ns with
                  | error e => rw [hnames] at h; exact absurd h (by simp)
                  | ok names =>
                    rw [hnames] at h
                    simp only at h
                    cases hbase : mapE (slotLink ns ids names)
                        (List.range KNET_LINK_NUM_LIMIT) with
                    | error e => rw [hbase] at h; exact absurd h (by simp)
                    | ok base =>
                      rw [hbase] at h
                      simp only at h
                      have hblen : base.length = KNET_LINK_NUM_LIMIT := by
                        have := mapE_ok_length _ _ _ hbase
                        simpa using this
                      have hnsne : ns ≠ [] := by
                        intro hns
                        rw [hns] at hempty
                        exact hempty rfl
                      cases hie : interfaceEntries cfg with
                      | error e => rw [hie] at h; exact absurd h (by simp)
                      | ok oi =>
                        rw [hie] at h
                        cases oi with
                        | none =>
                          simp only at h
                          cases h
                          exact Or.inr ⟨ns, ids, names, ls, rfl, hnsne, hids, hnames,
                            hbase, hblen, fun j => Iff.rfl⟩
                        | some xs =>
                          simp only at h
                          cases hdict : linksOptionDict xs with
                          | error e => rw [hdict] at h; exact absurd h (by simp)
                          | ok dict =>
                            rw [hdict] at h
                            simp only at h
                            obtain ⟨hlen, hiff⟩ := mergeLinkOptionsGo_ok_shape dict base 0 ls h
                            exact Or.inr ⟨ns, ids, names, base, rfl, hnsne, hids, hnames,
                              hbase, by rw [hlen, hblen], hiff⟩

/-- Counterexample for C1 as stated: with transport knet but no node list
section, `links()` returns the empty list, not a list of 8 slots. -/
theorem links_no_nodelist_counterexample :
    links cfgC1 = .ok [] ∧
    ¬ ∃ ls, links cfgC1 = .ok ls ∧ ls.length = KNET_LINK_NUM_LIMIT := by
  refine ⟨rfl, ?_⟩
  rintro ⟨ls, h, hlen⟩
  rw [show links cfgC1 = Except.ok [] from rfl] at h
  cases h
  exact absurd hlen (by decide)

/-- C1 as amended: whenever `links()` succeeds, it returns the empty list
if the node list section is absent; if the node list is present it
returns exactly 8 slots, and slot `i` is `None` iff the *first* node
entry does not define `ring{i}_addr`. -/
theorem links_slots (cfg : DomNode) (ls : List (Option Link)) (h : links cfg = .ok ls) :
    (getNodeEntries cfg = .ok none → ls = []) ∧
    (∀ ns, getNodeEntries cfg = .ok (some ns) →
      ls.length = KNET_LINK_NUM_LIMIT ∧
      ∀ i, i < KNET_LINK_NUM_LIMIT →
        (ls.get? i = some none ↔ alistGet? (ns.headD []) (ringAddrKey i) = none)) := by
  rcases links_ok_elim cfg ls h with ⟨hne, hls⟩ |
    ⟨ns, ids, names, base, hne, hnsne, hids, hnames, hbase, hlen, hiff⟩
  · constructor
    · intro _; exact hls
    · intro ns hns
      rw [hne] at hns
      exact absurd hns (by simp)
  · constructor
    · intro h0
      rw [hne] at h0
      exact absurd h0 (by simp)
    · intro ns' hns'
      rw [hne] at hns'
      simp only [Except.ok.injEq, Option.some.injEq] at hns'
      subst hns'
      refine ⟨hlen, fun i hi => ?_⟩
      have hblen : base.length = KNET_LINK_NUM_LIMIT := by
        have := mapE_ok_length _ _ _ hbase
        simpa using this
      cases hbi : base.get? i with
      | none =>
        exfalso
        have := List.get?_eq_none.mp hbi
        rw [hblen] at this
        exact absurd hi (by omega)
      | some b =>
        have hslot : slotLink ns ids names i = .ok b := by
          have hr : (List.range KNET_LINK_NUM_LIMIT).get? i = some i := List.get?_range hi
          have := mapE_ok_get _ _ _ hbase i
          rw [hr, hbi] at this
          exact this
        cases hns : ns with
        | nil => exact absurd hns hnsne
        | cons n0 tl =>
          rw [hns] at hslot
          have hsiff := slotLink_ok_none_iff n0 tl ids names i b hslot
          rw [hiff i, hbi]
          simp only [Option.some.injEq]
          simpa using hsiff

/-- Witness for C1 (amended) at a concrete two-member configuration: 8
slots, slot 0 present, slot 1 empty. -/
theorem links_slots_witness :
    ∃ ls, links cfgC1w = .ok ls ∧ ls.length = KNET_LINK_NUM_LIMIT ∧
      ls.get? 1 = some none ∧ ¬ ls.get? 0 = some none := by
  have h : links cfgC1w = .ok ((links cfgC1w).toOption.getD []) := rfl
  have hns : getNodeEntries cfgC1w = .ok (some
      [[("nodeid", DomValue.scalar "1"), ("name", DomValue.scalar "alice"),
        ("ring0_addr", DomValue.scalar "10.0.0.1")],
       [("nodeid", DomValue.scalar "2"), ("name", DomValue.scalar "bob"),
        ("ring0_addr", DomValue.scalar "10.0.0.2")]]) := rfl
  obtain ⟨hlen, hslot⟩ := (links_slots cfgC1w _ h).2 _ hns
  refine ⟨_, h, hlen, ?_, ?_⟩
  · exact (hslot 1 (by decide)).mpr rfl
  · intro h0
    exact Option.noConfusion ((hslot 0 (by decide)).mp h0)

/-! ### C6: `remove_link` guards -/

/-- C6: in any configuration with exactly one present link, `remove_link`
on that link refuses with the cannot-remove-last-link error, and
`remove_link` on a non-existent linknumber fails with the
link-does-not-exist error; either way the tree is untouched. -/
theorem remove_link_guards (cfg : DomNode) (ls : List (Option Link))
    (h : links cfg = .ok ls) (hone : countPresent ls = 1) :
    (∀ m l, ls.get? m = some (some l) →
       remove_link cfg m = (some .cannotRemoveLastLink, cfg)) ∧
    (∀ ln, KNET_LINK_NUM_LIMIT ≤ ln ∨ ls.get? ln = some none →
       remove_link cfg ln = (some (.linkDoesNotExist ln), cfg)) := by
  have hlen8 : ls.length = KNET_LINK_NUM_LIMIT := by
    rcases links_ok_elim cfg ls h with ⟨_, hls⟩ | ⟨_, _, _, _, _, _, _, _, _, hlen, _⟩
    · subst hls
      simp [countPresent] at hone
    · exact hlen
  constructor
  · intro m l hm
    have hmlt : m < ls.length := by
      by_contra hge
      rw [List.get?_eq_none.mpr (by omega)] at hm
      exact absurd hm (by simp)
    unfold remove_link
    rw [h]
    simp only
    rw [if_neg (by omega : ¬ m ≥ KNET_LINK_NUM_LIMIT), hm]
    simp only
    rw [if_pos (by omega : countPresent ls ≤ 1)]
  · intro ln hln
    unfold remove_link
    rw [h]
    simp only
    rcases hln with hge | hnone
    · rw [if_pos hge]
    · have hlt : ln < ls.length := by
        by_contra hge2
        rw [List.get?_eq_none.mpr (by omega)] at hnone
        exact absurd hnone (by simp)
      rw [if_neg (by omega : ¬ ln ≥ KNET_LINK_NUM_LIMIT), hnone]

/-- Witness for C6 at a one-link configuration: removing the only link
and removing the absent links 9 and 3 all fail as claimed. -/
theorem remove_link_guards_witness :
    remove_link cfgC6 0 = (some .cannotRemoveLastLink, cfgC6) ∧
    remove_link cfgC6 9 = (some (.linkDoesNotExist 9), cfgC6) ∧
    remove_link cfgC6 3 = (some (.linkDoesNotExist 3), cfgC6) := by
  have h : links cfgC6 = .ok ((links cfgC6).toOption.getD []) := rfl
  have hg := remove_link_guards cfgC6 _ h rfl
  exact ⟨hg.1 0 _ rfl, hg.2 9 (Or.inl (by decide)), hg.2 3 (Or.inr rfl)⟩

/-! ### Shared lemmas about `__upsert_node_addr_impl` -/

theorem links_ok_length (cfg : DomNode) (ls : List (Option Link)) (h : links cfg = .ok ls)
    (hne : ls ≠ []) : ls.length = KNET_LINK_NUM_LIMIT := by
  rcases links_ok_elim cfg ls h with ⟨_, hls⟩ | ⟨_, _, _, _, _, _, _, _, _, hlen, _⟩
  · exact absurd hls hne
  · exact hlen

theorem getNodeEntries_ok_some_elim (cfg : DomNode) (ns : List DomNode)
    (h : getNodeEntries cfg = .ok (some ns)) :
    ∃ nl xs, alistGet? cfg "nodelist" = some (.node nl) ∧
      alistGet? nl "node" = some (.seq xs) ∧ asNodes .assertionError xs = .ok ns := by
  unfold getNodeEntries at h
  cases h1 : alistGet? cfg "nodelist" with
  | none => rw [h1] at h; exact absurd h (by simp)
  | some v =>
    rw [h1] at h
    cases v with
    | scalar s => exact absurd h (by simp)
    | seq es => exact absurd h (by simp)
    | node nl =>
      simp only at h
      cases h2 : alistGet? nl "node" with
      | none => rw [h2] at h; exact absurd h (by simp)
      | some v2 =>
        rw [h2] at h
        cases v2 with
        | scalar s => exact absurd h (by simp)
        | node es => exact absurd h (by simp)
        | seq xs =>
          simp only at h
          cases h3 : asNodes .assertionError xs with
          | error e => rw [h3] at h; exact absurd h (by simp)
          | ok ns' =>
            rw [h3] at h
            simp only [Except.ok.injEq, Option.some.injEq] at h
            subst h
            exact ⟨nl, xs, rfl, h2, h3⟩

theorem links_ok_nodelist (cfg : DomNode) (ls : List (Option Link)) (h : links cfg = .ok ls)
    (ln : Nat) (link : Link) (hln : ls.get? ln = some (some link)) :
    ∃ ns nl xs ids, alistGet? cfg "nodelist" = some (.node nl) ∧
      alistGet? nl "node" = some (.seq xs) ∧ asNodes .assertionError xs = .ok ns ∧
      mapE nodeIdOf ns = .ok ids := by
  rcases links_ok_elim cfg ls h with ⟨_, hls⟩ | ⟨ns, ids, _, _, hne, _, hids, _, _, _, _⟩
  · subst hls
    simp at hln
  · obtain ⟨nl, xs, h1, h2, h3⟩ := getNodeEntries_ok_some_elim cfg ns hne
    exact ⟨ns, nl, xs, ids, h1, h2, h3, hids⟩

theorem writeAddrLoop_ok (ln : Nat) (na : List (Int × String)) :
    ∀ ns : List DomNode, (∀ n ∈ ns, ∃ v, nodeIdOf n = .ok v) →
    (writeAddrLoop ln na ns).1 = none := by
  intro ns
  induction ns with
  | nil => intro _; rfl
  | cons n rest ih =>
    intro hall
    obtain ⟨v, hv⟩ := hall n (by simp)
    simp only [writeAddrLoop, hv]
    exact ih (fun x hx => hall x (by simp [hx]))

theorem alistGet?_set_cases {κ α : Type} [DecidableEq κ] (m : List (κ × α)) (k : κ) (x : α)
    (c : κ) (v : α) (h : alistGet? (alistSet m k x) c = some v) :
    (c = k ∧ v = x) ∨ alistGet? m c = some v := by
  by_cases hck : c = k
  · subst hck
    rw [alistGet?_set_self] at h
    exact Or.inl ⟨rfl, (Option.some.injEq _ _ ▸ h).symm⟩
  · right
    rw [alistGet?_set_ne m k c x (fun hh => hck hh.symm)] at h
    exact h

theorem addLinkAddrs_mem (canon : String → String) :
    ∀ (nds : List LinkNode) (m : List (String × Int)) (c : String) (v : Int),
    alistGet? (addLinkAddrs canon nds m) c = some v →
    alistGet? m c = some v ∨
      ∃ nd ∈ nds, nd.addr ≠ "" ∧ canon nd.addr = c ∧ nd.nodeid = v := by
  intro nds
  induction nds with
  | nil => intro m c v h; exact Or.inl h
  | cons nd rest ih =>
    intro m c v h
    simp only [addLinkAddrs] at h
    rcases ih _ c v h with hm | ⟨nd', hnd', hprop⟩
    · by_cases haddr : nd.addr = ""
      · rw [if_pos haddr] at hm
        exact Or.inl hm
      · rw [if_neg haddr] at hm
        rcases alistGet?_set_cases m (canon nd.addr) nd.nodeid c v hm with ⟨hc, hv⟩ | hm2
        · exact Or.inr ⟨nd, by simp, haddr, hc.symm, hv.symm⟩
        · exact Or.inl hm2
    · exact Or.inr ⟨nd', by simp [hnd'], hprop⟩

theorem existingAddrMapGo_mem (canon : String → String) :
    ∀ (ls : List (Option Link)) (m : List (String × Int)) (c : String) (v : Int),
    alistGet? (existingAddrMapGo canon ls m) c = some v →
    alistGet? m c = some v ∨
      ∃ lk nd, (some lk) ∈ ls ∧ nd ∈ lk.nodes ∧ nd.addr ≠ "" ∧
        canon nd.addr = c ∧ nd.nodeid = v := by
  intro ls
  induction ls with
  | nil => intro m c v h; exact Or.inl h
  | cons hd rest ih =>
    intro m c v h
    cases hd with
    | none =>
      simp only [existingAddrMapGo] at h
      rcases ih _ c v h with hm | ⟨lk, nd, hlk, hp⟩
      · exact Or.inl hm
      · exact Or.inr ⟨lk, nd, by simp [hlk], hp⟩
    | some lk0 =>
      simp only [existingAddrMapGo] at h
      rcases ih _ c v h with hm | ⟨lk, nd, hlk, hp⟩
      · rcases addLinkAddrs_mem canon lk0.nodes m c v hm with hm2 | ⟨nd, hnd, hp⟩
        · exact Or.inl hm2
        · exact Or.inr ⟨lk0, nd, by simp, hnd, hp⟩
      · exact Or.inr ⟨lk, nd, by simp [hlk], hp⟩

theorem existingAddrMap_mem (canon : String → String) (ls : List (Option Link)) (c : String)
    (v : Int) (h : alistGet? (existingAddrMap canon ls) c = some v) :
    ∃ lk nd, (some lk) ∈ ls ∧ nd ∈ lk.nodes ∧ nd.addr ≠ "" ∧
      canon nd.addr = c ∧ nd.nodeid = v := by
  rcases existingAddrMapGo_mem canon ls [] c v h with hm | hp
  · exact absurd hm (by simp [alistGet?])
  · exact hp

/-- The exact outcome of `update_node_addr` on a single colliding pair:
the duplicate-address exception carrying the requested nodeid and the
map's holder of the canonical address, with the tree untouched. -/
theorem update_node_addr_dup_helper (canon : String → String) (cfg : DomNode)
    (ls : List (Option Link)) (ln : Nat) (link : Link) (found : LinkNode)
    (nid other : Int) (addr : String)
    (h : links cfg = .ok ls) (hln : ls.get? ln = some (some link))
    (hfound : link.nodes.find? (fun n => n.nodeid == nid) = some found)
    (hchanged : found.addr = "" ∨ canon found.addr ≠ canon addr)
    (hmap : alistGet? (existingAddrMap canon ls) (canon addr) = some other) :
    update_node_addr canon cfg ln [(nid, addr)] =
      (some (.duplicatedNodeAddress addr nid other), cfg) := by
  have hlt : ln < ls.length := by
    by_contra hge
    rw [List.get?_eq_none.mpr (by omega)] at hln
    exact absurd hln (by simp)
  have hlen8 : ls.length = KNET_LINK_NUM_LIMIT :=
    links_ok_length cfg ls h (by intro he; rw [he] at hln; simp at hln)
  have hloop : upsertCheckLoop canon link.nodes (existingAddrMap canon ls) [(nid, addr)] =
      .error (.duplicatedNodeAddress addr nid other) := by
    unfold upsertCheckLoop
    rw [hfound]
    simp only
    rw [if_pos hchanged, hmap]
  unfold update_node_addr
  rw [h]
  simp only
  rw [if_neg (by omega : ¬ ln ≥ KNET_LINK_NUM_LIMIT), hln]
  simp only
  unfold upsert_node_addr_impl
  rw [hln]
  simp only
  rw [hloop]

/-- The self-reassignment path of `update_node_addr` on a single pair: if
the node's current address on the target link is canonically equal to the
new value, the uniqueness check is skipped and the call succeeds. -/
theorem update_node_addr_self_helper (canon : String → String) (cfg : DomNode)
    (ls : List (Option Link)) (ln : Nat) (link : Link) (found : LinkNode)
    (nid : Int) (addr : String)
    (h : links cfg = .ok ls) (hln : ls.get? ln = some (some link))
    (hfound : link.nodes.find? (fun n => n.nodeid == nid) = some found)
    (hself : found.addr ≠ "") (heq : canon found.addr = canon addr) :
    (update_node_addr canon cfg ln [(nid, addr)]).1 = none := by
  have hlt : ln < ls.length := by
    by_contra hge
    rw [List.get?_eq_none.mpr (by omega)] at hln
    exact absurd hln (by simp)
  have hlen8 : ls.length = KNET_LINK_NUM_LIMIT :=
    links_ok_length cfg ls h (by intro he; rw [he] at hln; simp at hln)
  have hloop : upsertCheckLoop canon link.nodes (existingAddrMap canon ls) [(nid, addr)] =
      .ok () := by
    unfold upsertCheckLoop
    rw [hfound]
    simp only
    rw [if_neg (by push_neg; exact ⟨hself, heq⟩)]
    rfl
  obtain ⟨ns, nl, xs, ids, hnl, hnode, hasn, hids⟩ := links_ok_nodelist cfg ls h ln link hln
  have hw := writeAddrLoop_ok ln [(nid, addr)] ns (mapE_ok_mem _ _ _ hids)
  unfold update_node_addr
  rw [h]
  simp only
  rw [if_neg (by omega : ¬ ln ≥ KNET_LINK_NUM_LIMIT), hln]
  simp only
  unfold upsert_node_addr_impl
  rw [hln]
  simp only
  rw [hloop]
  simp only
  rw [hnl]
  simp only
  rw [hnode]
  simp only
  rw [hasn]
  simp only
  exact hw

/-! ### C4: global address uniqueness in `update_node_addr` -/

/-- C4: for an existing link and a `(nodeid, addr)` pair: if the map of
canonicalized addresses in use holds `canon addr` for a *different* node,
`update_node_addr` raises the duplicate-address exception carrying both
node ids, and the holder really uses an equivalent address on some
present link; re-assigning a node's own current address in any
canonically-equivalent textual form passes the uniqueness check and
succeeds.  (`canon` models `utils.IP(...).ip_address`, which is not among
the sources.) -/
theorem update_node_addr_uniqueness :
    (∀ (canon : String → String) (cfg : DomNode) (ls : List (Option Link)) (ln : Nat)
       (link : Link) (found : LinkNode) (nid other : Int) (addr : String),
       links cfg = .ok ls → ls.get? ln = some (some link) →
       link.nodes.find? (fun n => n.nodeid == nid) = some found →
       (found.addr = "" ∨ canon found.addr ≠ canon addr) →
       alistGet? (existingAddrMap canon ls) (canon addr) = some other →
       other ≠ nid →
       update_node_addr canon cfg ln [(nid, addr)] =
         (some (.duplicatedNodeAddress addr nid other), cfg) ∧
       ∃ lk nd, (some lk) ∈ ls ∧ nd ∈ lk.nodes ∧ nd.addr ≠ "" ∧
         canon nd.addr = canon addr ∧ nd.nodeid = other) ∧
    (∀ (canon : String → String) (cfg : DomNode) (ls : List (Option Link)) (ln : Nat)
       (link : Link) (found : LinkNode) (nid : Int) (addr : String),
       links cfg = .ok ls → ls.get? ln = some (some link) →
       link.nodes.find? (fun n => n.nodeid == nid) = some found →
       found.addr ≠ "" → canon found.addr = canon addr →
       (update_node_addr canon cfg ln [(nid, addr)]).1 = none) := by
  constructor
  · intro canon cfg ls ln link found nid other addr h hln hfound hchanged hmap _
    exact ⟨update_node_addr_dup_helper canon cfg ls ln link found nid other addr
             h hln hfound hchanged hmap,
           existingAddrMap_mem canon ls (canon addr) other hmap⟩
  · intro canon cfg ls ln link found nid addr h hln hfound hself heq
    exact update_node_addr_self_helper canon cfg ls ln link found nid addr h hln hfound hself heq

/-- Witness for C4: assigning node 2's address to node 1 raises the
duplicate-address error naming 1 and 2 and leaves the tree untouched;
re-assigning node 1's own address succeeds. -/
theorem update_node_addr_uniqueness_witness :
    update_node_addr (fun s => s) cfgC4 0 [(1, "10.0.0.2")] =
      (some (.duplicatedNodeAddress "10.0.0.2" 1 2), cfgC4) ∧
    (update_node_addr (fun s => s) cfgC4 0 [(1, "10.0.0.1")]).1 = none := by
  have h : links cfgC4 = .ok ((links cfgC4).toOption.getD []) := rfl
  constructor
  · exact (update_node_addr_uniqueness.1 (fun s => s) cfgC4 _ 0 _ _ 1 2 "10.0.0.2"
      h rfl rfl (Or.inr (by decide)) rfl (by decide)).1
  · exact update_node_addr_uniqueness.2 (fun s => s) cfgC4 _ 0 _ _ 1 "10.0.0.1"
      h rfl rfl (by decide) rfl

/-! ### C8: the duplicate-address exception also fires for the same node
across links -/

/-- C8: when the colliding prior use of the canonical address belongs to
the *same* node (on another link), `update_node_addr` still raises the
duplicate-address exception, then carrying that nodeid as both `node1`
and `node2`; the prior use is a real one on some present link. -/
theorem update_node_addr_same_node_dup
    (canon : String → String) (cfg : DomNode) (ls : List (Option Link)) (ln : Nat)
    (link : Link) (found : LinkNode) (nid : Int) (addr : String)
    (h : links cfg = .ok ls) (hln : ls.get? ln = some (some link))
    (hfound : link.nodes.find? (fun n => n.nodeid == nid) = some found)
    (hchanged : found.addr = "" ∨ canon found.addr ≠ canon addr)
    (hmap : alistGet? (existingAddrMap canon ls) (canon addr) = some nid) :
    update_node_addr canon cfg ln [(nid, addr)] =
      (some (.duplicatedNodeAddress addr nid nid), cfg) ∧
    ∃ lk nd, (some lk) ∈ ls ∧ nd ∈ lk.nodes ∧ nd.addr ≠ "" ∧
      canon nd.addr = canon addr ∧ nd.nodeid = nid :=
  ⟨update_node_addr_dup_helper canon cfg ls ln link found nid nid addr
     h hln hfound hchanged hmap,
   existingAddrMap_mem canon ls (canon addr) nid hmap⟩

/-- Witness for C8: node 1 holds 10.0.0.1 on link 0; assigning that same
address to node 1 on link 1 (where its address is 10.0.1.1) raises the
duplicate-address exception with node1 = node2 = 1. -/
theorem update_node_addr_same_node_dup_witness :
    update_node_addr (fun s => s) cfgC8 1 [(1, "10.0.0.1")] =
      (some (.duplicatedNodeAddress "10.0.0.1" 1 1), cfgC8) := by
  have h : links cfgC8 = .ok ((links cfgC8).toOption.getD []) := rfl
  exact (update_node_addr_same_node_dup (fun s => s) cfgC8 _ 1 _ _ 1 "10.0.0.1"
    h rfl rfl (Or.inr (by decide)) rfl).1

/-! ### C3: atomicity of the mutating operations -/

/-- Counterexample for C3 as stated: `add_link` writes every node's new
ring address into the tree and only then validates the options, so an
unsupported option name leaves the addresses behind; `remove_link`
deletes the ring addresses and only then crashes on an interface record
without a `linknumber` key.  Both leave a partially-mutated tree. -/
theorem add_remove_link_not_atomic_counterexample :
    ((add_link (fun s => s) cfgC3a [(1, "10.0.0.3"), (2, "10.0.0.4")]
        [("bogus", some "1")]).1 = some (.unsupportedOption "bogus") ∧
     nodeRingAddr (add_link (fun s => s) cfgC3a [(1, "10.0.0.3"), (2, "10.0.0.4")]
        [("bogus", some "1")]).2 0 1 = some "10.0.0.3" ∧
     nodeRingAddr cfgC3a 0 1 = none) ∧
    ((remove_link cfgC3b 1).1 = some .keyError ∧
     nodeRingAddr (remove_link cfgC3b 1).2 0 1 = none ∧
     nodeRingAddr cfgC3b 0 1 = some "10.0.1.1") :=
  ⟨⟨rfl, rfl, rfl⟩, ⟨rfl, rfl, rfl⟩⟩

/-- C3 as amended: `update_link` and `update_node_addr` are atomic on the
in-memory tree — whenever they return an error, the returned tree is the
unchanged input. (`add_link` and `remove_link` are not: see the
counterexample.) -/
theorem update_ops_atomic :
    (∀ (cfg : DomNode) (ln : Nat) (options : OptMap) (e : LmErr) (cfg' : DomNode),
       update_link cfg ln options = (some e, cfg') → cfg' = cfg) ∧
    (∀ (canon : String → String) (cfg : DomNode) (ln : Nat) (na : List (Int × String))
       (e : LmErr) (cfg' : DomNode),
       update_node_addr canon cfg ln na = (some e, cfg') → cfg' = cfg) := by
  constructor
  · intro cfg ln options e cfg' h
    unfold update_link at h
    cases hp : update_link_pure cfg ln options with
    | error e' =>
      rw [hp] at h
      simp only [Prod.mk.injEq] at h
      exact h.2.symm
    | ok c =>
      rw [hp] at h
      simp at h
  · intro canon cfg ln na e cfg' h
    unfold update_node_addr at h
    cases hl : links cfg with
    | error e2 =>
      rw [hl] at h
      simp only [Prod.mk.injEq] at h
      exact h.2.symm
    | ok ls =>
      rw [hl] at h
      simp only at h
      by_cases hge : ln ≥ KNET_LINK_NUM_LIMIT
      · rw [if_pos hge] at h
        simp only [Prod.mk.injEq] at h
        exact h.2.symm
      · rw [if_neg hge] at h
        cases hg : ls.get? ln with
        | none =>
          rw [hg] at h
          simp only [Prod.mk.injEq] at h
          exact h.2.symm
        | some o =>
          rw [hg] at h
          cases o with
          | none =>
            simp only [Prod.mk.injEq] at h
            exact h.2.symm
          | some link =>
            simp only at h
            unfold upsert_node_addr_impl at h
            rw [hg] at h
            simp only at h
            cases hcl : upsertCheckLoop canon link.nodes (existingAddrMap canon ls) na with
            | error e3 =>
              rw [hcl] at h
              simp only [Prod.mk.injEq] at h
              exact h.2.symm
            | ok u =>
              rw [hcl] at h
              simp only at h
              obtain ⟨ns, nl, xs, ids, hnl, hnode, hasn, hids⟩ :=
                links_ok_nodelist cfg ls hl ln link hg
              rw [hnl] at h
              simp only at h
              rw [hnode] at h
              simp only at h
              rw [hasn] at h
              simp only at h
              have hw := writeAddrLoop_ok ln na ns (mapE_ok_mem _ _ _ hids)
              simp only [Prod.mk.injEq] at h
              rw [hw] at h
              exact absurd h.1 (by simp)

/-- Witness for C3 (amended): concrete failing `update_link` and
`update_node_addr` calls whose returned tree is the input. -/
theorem update_ops_atomic_witness :
    (update_link cfgC3a 0 [("bogus", some "1")]).2 = cfgC3a ∧
    (update_node_addr (fun s => s) cfgC3a 0 [(1, "10.0.0.2")]).2 = cfgC3a := by
  constructor
  · exact update_ops_atomic.1 cfgC3a 0 [("bogus", some "1")] _ _ rfl
  · exact update_ops_atomic.2 (fun s => s) cfgC3a 0 [(1, "10.0.0.2")] _ _ rfl

/-! ### C5 machinery: no code path but the roster check raises
`MissingNodesException` -/

theorem asNodes_error_eq (e0 : LmErr) (xs : List DomValue) (e : LmErr)
    (h : asNodes e0 xs = .error e) : e = e0 := by
  obtain ⟨x, _, hx⟩ := mapE_error_exists _ _ _ h
  cases x with
  | scalar s => simp [asNode] at hx; exact hx.symm
  | node n => simp [asNode] at hx
  | seq es => simp [asNode] at hx; exact hx.symm

theorem nodeIdOf_not_missing (n : DomNode) (e : LmErr) (h : nodeIdOf n = .error e) :
    e.isMissingNodes = false := by
  unfold nodeIdOf at h
  cases h1 : alistGet? n "nodeid" with
  | none => rw [h1] at h; simp only at h; cases h; rfl
  | some v =>
    rw [h1] at h
    cases v with
    | scalar s =>
      simp only at h
      cases h2 : parsePyInt s with
      | none => rw [h2] at h; cases h; rfl
      | some p => rw [h2] at h; exact absurd h (by simp)
    | node es => simp only at h; cases h; rfl
    | seq es => simp only at h; cases h; rfl

theorem nameOf_not_missing (n : DomNode) (e : LmErr) (h : nameOf n = .error e) :
    e.isMissingNodes = false := by
  unfold nameOf at h
  cases h1 : alistGet? n "name" with
  | none => rw [h1] at h; simp only at h; cases h; rfl
  | some v =>
    rw [h1] at h
    cases v with
    | scalar s => simp only at h; exact absurd h (by simp)
    | node es => simp only at h; cases h; rfl
    | seq es => simp only at h; cases h; rfl

theorem ringAddrOf_not_missing (i : Nat) (n : DomNode) (e : LmErr)
    (h : ringAddrOf i n = .error e) : e.isMissingNodes = false := by
  unfold ringAddrOf at h
  cases h1 : alistGet? n (ringAddrKey i) with
  | none => rw [h1] at h; simp only at h; cases h; rfl
  | some v =>
    rw [h1] at h
    cases v with
    | scalar s => simp only at h; exact absurd h (by simp)
    | node es => simp only at h; cases h; rfl
    | seq es => simp only at h; cases h; rfl

theorem loadLinknumberField_not_missing (data : OptMap) (cur : Int) (e : LmErr)
    (h : loadLinknumberField data cur = .error e) : e.isMissingNodes = false := by
  unfold loadLinknumberField at h
  cases h1 : alistGet? data "linknumber" with
  | none => rw [h1] at h; exact absurd h (by simp)
  | some v =>
    rw [h1] at h
    cases v with
    | none => simp only at h; cases h; rfl
    | some s =>
      simp only at h
      cases h2 : parsePyInt s with
      | none => rw [h2] at h; cases h; rfl
      | some p => rw [h2] at h; exact absurd h (by simp)

theorem loadOptIntField_not_missing (data : OptMap) (name : String) (cur : Option Int)
    (e : LmErr) (h : loadOptIntField data name cur = .error e) : e.isMissingNodes = false := by
  unfold loadOptIntField at h
  cases h1 : alistGet? data name with
  | none => rw [h1] at h; exact absurd h (by simp)
  | some v =>
    rw [h1] at h
    cases v with
    | none => exact absurd h (by simp)
    | some s =>
      simp only at h
      cases h2 : parsePyInt s with
      | none => rw [h2] at h; cases h; rfl
      | some p => rw [h2] at h; exact absurd h (by simp)

theorem loadOptStrField_not_missing (data : OptMap) (name : String) (cur : Option String)
    (e : LmErr) (h : loadOptStrField data name cur = .error e) : e.isMissingNodes = false := by
  unfold loadOptStrField at h
  cases h1 : alistGet? data name with
  | none => rw [h1] at h; exact absurd h (by simp)
  | some v => rw [h1] at h; exact absurd h (by simp)

theorem load_options_not_missing (l : Link) (data : OptMap) (e : LmErr)
    (h : l.load_options data = .error e) : e.isMissingNodes = false := by
  unfold Link.load_options at h
  cases h1 : loadLinknumberField data l.linknumber with
  | error e1 => rw [h1] at h; cases h; exact loadLinknumberField_not_missing _ _ _ h1
  | ok v1 =>
    rw [h1] at h
    simp only at h
    cases h2 : loadOptIntField data "mcastport" l.mcastport with
    | error e2 => rw [h2] at h; cases h; exact loadOptIntField_not_missing _ _ _ _ h2
    | ok v2 =>
      rw [h2] at h
      simp only at h
      cases h3 : loadOptIntField data "knet_link_priority" l.knet_link_priority with
      | error e3 => rw [h3] at h; cases h; exact loadOptIntField_not_missing _ _ _ _ h3
      | ok v3 =>
        rw [h3] at h
        simp only at h
        cases h4 : loadOptIntField data "knet_ping_interval" l.knet_ping_interval with
        | error e4 => rw [h4] at h; cases h; exact loadOptIntField_not_missing _ _ _ _ h4
        | ok v4 =>
          rw [h4] at h
          simp only at h
          cases h5 : loadOptIntField data "knet_ping_timeout" l.knet_ping_timeout with
          | error e5 => rw [h5] at h; cases h; exact loadOptIntField_not_missing _ _ _ _ h5
          | ok v5 =>
            rw [h5] at h
            simp only at h
            cases h6 : loadOptIntField data "knet_ping_precision" l.knet_ping_precision with
            | error e6 => rw [h6] at h; cases h; exact loadOptIntField_not_missing _ _ _ _ h6
            | ok v6 =>
              rw [h6] at h
              simp only at h
              cases h7 : loadOptIntField data "knet_pong_count" l.knet_pong_count with
              | error e7 => rw [h7] at h; cases h; exact loadOptIntField_not_missing _ _ _ _ h7
              | ok v7 =>
                rw [h7] at h
                simp only at h
                cases h8 : loadOptStrField data "knet_transport" l.knet_transport with
                | error e8 => rw [h8] at h; cases h; exact loadOptStrField_not_missing _ _ _ _ h8
                | ok v8 => rw [h8] at h; exact absurd h (by simp)

theorem domOptions_not_missing (x : DomNode) (e : LmErr) (h : domOptions x = .error e) :
    e.isMissingNodes = false := by
  obtain ⟨kv, _, hx⟩ := mapE_error_exists _ _ _ h
  cases hv : kv.2 with
  | scalar s => rw [hv] at hx; exact absurd hx (by simp)
  | node es => rw [hv] at hx; simp only at hx; cases hx; rfl
  | seq es => rw [hv] at hx; simp only at hx; cases hx; rfl

theorem loadOptionsDom_not_missing (l : Link) (x : DomNode) (e : LmErr)
    (h : l.loadOptionsDom x = .error e) : e.isMissingNodes = false := by
  unfold Link.loadOptionsDom at h
  cases h1 : domOptions x with
  | error e1 => rw [h1] at h; cases h; exact domOptions_not_missing _ _ h1
  | ok data => rw [h1] at h; exact load_options_not_missing _ _ _ h

theorem totem_transport_not_missing (cfg : DomNode) (e : LmErr)
    (h : totem_transport cfg = .error e) : e.isMissingNodes = false := by
  unfold totem_transport at h
  cases h1 : alistGet? cfg "totem" with
  | none => rw [h1] at h; exact absurd h (by simp)
  | some v =>
    rw [h1] at h
    cases v with
    | scalar s => simp only at h; cases h; rfl
    | seq es => simp only at h; cases h; rfl
    | node t =>
      simp only at h
      cases h2 : alistGet? t "transport" with
      | none => rw [h2] at h; exact absurd h (by simp)
      | some v2 =>
        rw [h2] at h
        cases v2 with
        | scalar s => simp only at h; exact absurd h (by simp)
        | node es => simp only at h; cases h; rfl
        | seq es => simp only at h; cases h; rfl

theorem getNodeEntries_not_missing (cfg : DomNode) (e : LmErr)
    (h : getNodeEntries cfg = .error e) : e.isMissingNodes = false := by
  unfold getNodeEntries at h
  cases h1 : alistGet? cfg "nodelist" with
  | none => rw [h1] at h; exact absurd h (by simp)
  | some v =>
    rw [h1] at h
    cases v with
    | scalar s => simp only at h; cases h; rfl
    | seq es => simp only at h; cases h; rfl
    | node nl =>
      simp only at h
      cases h2 : alistGet? nl "node" with
      | none => rw [h2] at h; exact absurd h (by simp)
      | some v2 =>
        rw [h2] at h
        cases v2 with
        | scalar s => simp only at h; cases h; rfl
        | node es => simp only at h; cases h; rfl
        | seq xs =>
          simp only at h
          cases h3 : asNodes .assertionError xs with
          | error e3 =>
            rw [h3] at h
            cases h
            rw [asNodes_error_eq _ _ _ h3]
            rfl
          | ok ns => rw [h3] at h; exact absurd h (by simp)

theorem interfaceEntries_not_missing (cfg : DomNode) (e : LmErr)
    (h : interfaceEntries cfg = .error e) : e.isMissingNodes = false := by
  unfold interfaceEntries at h
  cases h1 : alistGet? cfg "totem" with
  | none => rw [h1] at h; exact absurd h (by simp)
  | some v =>
    rw [h1] at h
    cases v with
    | scalar s => simp only at h; cases h; rfl
    | seq es => simp only at h; cases h; rfl
    | node t =>
      simp only at h
      cases h2 : alistGet? t "interface" with
      | none => rw [h2] at h; exact absurd h (by simp)
      | some v2 =>
        rw [h2] at h
        cases v2 with
        | scalar s => simp only at h; cases h; rfl
        | node es => simp only at h; cases h; rfl
        | seq xs =>
          simp only at h
          cases h3 : asNodes .typeError xs with
          | error e3 =>
            rw [h3] at h
            cases h
            rw [asNodes_error_eq _ _ _ h3]
            rfl
          | ok is => rw [h3] at h; exact absurd h (by simp)

theorem slotLink_not_missing (ns : List DomNode) (ids : List Int) (names : List String)
    (i : Nat) (e : LmErr) (h : slotLink ns ids names i = .error e) :
    e.isMissingNodes = false := by
  unfold slotLink at h
  cases ns with
  | nil => exact absurd h (by simp)
  | cons n0 tl =>
    simp only at h
    cases h1 : alistGet? n0 (ringAddrKey i) with
    | none => rw [h1] at h; exact absurd h (by simp)
    | some v =>
      rw [h1] at h
      simp only at h
      cases h2 : mapE (ringAddrOf i) (n0 :: tl) with
      | error e2 =>
        rw [h2] at h
        cases h
        obtain ⟨x, _, hx⟩ := mapE_error_exists _ _ _ h2
        exact ringAddrOf_not_missing _ _ _ hx
      | ok addrs => rw [h2] at h; exact absurd h (by simp)

theorem linksOptionDictGo_not_missing :
    ∀ (xs : List DomNode) (acc : List (Int × DomNode)) (e : LmErr),
    linksOptionDictGo xs acc = .error e → e.isMissingNodes = false := by
  intro xs
  induction xs with
  | nil => intro acc e h; exact absurd h (by simp [linksOptionDictGo])
  | cons x rest ih =>
    intro acc e h
    simp only [linksOptionDictGo] at h
    cases h1 : ({} : Link).loadOptionsDom x with
    | error e1 => rw [h1] at h; cases h; exact loadOptionsDom_not_missing _ _ _ h1
    | ok l => rw [h1] at h; exact ih _ _ h

theorem mergeLinkOptionsGo_not_missing (dict : List (Int × DomNode)) :
    ∀ (base : List (Option Link)) (i : Nat) (e : LmErr),
    mergeLinkOptionsGo dict i base = .error e → e.isMissingNodes = false := by
  intro base
  induction base with
  | nil => intro i e h; exact absurd h (by simp [mergeLinkOptionsGo])
  | cons hd rest ih =>
    intro i e h
    cases hd with
    | none =>
      simp only [mergeLinkOptionsGo] at h
      cases h1 : mergeLinkOptionsGo dict (i + 1) rest with
      | error e1 => rw [h1] at h; cases h; exact ih _ _ h1
      | ok r => rw [h1] at h; exact absurd h (by simp)
    | some link =>
      simp only [mergeLinkOptionsGo] at h
      cases h1 : alistGet? dict (Int.ofNat i) with
      | none =>
        rw [h1] at h
        simp only at h
        cases h2 : mergeLinkOptionsGo dict (i + 1) rest with
        | error e2 => rw [h2] at h; cases h; exact ih _ _ h2
        | ok r => rw [h2] at h; exact absurd h (by simp)
      | some x =>
        rw [h1] at h
        simp only at h
        cases h2 : link.loadOptionsDom x with
        | error e2 => rw [h2] at h; cases h; exact loadOptionsDom_not_missing _ _ _ h2
        | ok link' =>
          rw [h2] at h
          simp only at h
          cases h3 : mergeLinkOptionsGo dict (i + 1) rest with
          | error e3 => rw [h3] at h; cases h; exact ih _ _ h3
          | ok r => rw [h3] at h; exact absurd h (by simp)

theorem links_not_missing (cfg : DomNode) (e : LmErr) (h : links cfg = .error e) :
    e.isMissingNodes = false := by
  unfold links at h
  cases h1 : totem_transport cfg with
  | error e1 => rw [h1] at h; cases h; exact totem_transport_not_missing _ _ h1
  | ok t =>
    rw [h1] at h
    simp only at h
    by_cases hk : t = "knet"
    case neg =>
      rw [if_pos hk] at h
      cases h
      rfl
    case pos =>
      rw [if_neg (by simp [hk])] at h
      cases h2 : getNodeEntries cfg with
      | error e2 => rw [h2] at h; cases h; exact getNodeEntries_not_missing _ _ h2
      | ok o =>
        rw [h2] at h
        cases o with
        | none => simp only at h; exact absurd h (by simp)
        | some ns =>
          simp only at h
          by_cases hempty : ns.isEmpty
          case pos => rw [if_pos hempty] at h; cases h; rfl
          case neg =>
            rw [if_neg hempty] at h
            by_cases hid : (ns.all fun n => (alistGet? n "nodeid").isSome) = true
            case neg => rw [if_pos (by simp [hid])] at h; cases h; rfl
            case pos =>
              rw [if_neg (by simp [hid])] at h
              by_cases hname : (ns.all fun n => (alistGet? n "name").isSome) = true
              case neg => rw [if_pos (by simp [hname])] at h; cases h; rfl
              case pos =>
                rw [if_neg (by simp [hname])] at h
                cases h3 : mapE nodeIdOf ns with
                | error e3 =>
                  rw [h3] at h
                  cases h
                  obtain ⟨x, _, hx⟩ := mapE_error_exists _ _ _ h3
                  exact nodeIdOf_not_missing _ _ hx
                | ok ids =>
                  rw [h3] at h
                  simp only at h
                  cases h4 : mapE nameOf ns with
                  | error e4 =>
                    rw [h4] at h
                    cases h
                    obtain ⟨x, _, hx⟩ := mapE_error_exists _ _ _ h4
                    exact nameOf_not_missing _ _ hx
                  | ok names =>
                    rw [h4] at h
                    simp only at h
                    cases h5 : mapE (slotLink ns ids names)
                        (List.range KNET_LINK_NUM_LIMIT) with
                    | error e5 =>
                      rw [h5] at h
                      cases h
                      obtain ⟨x, _, hx⟩ := mapE_error_exists _ _ _ h5
                      exact slotLink_not_missing _ _ _ _ _ hx
                    | ok base =>
                      rw [h5] at h
                      simp only at h
                      cases h6 : interfaceEntries cfg with
                      | error e6 => rw [h6] at h; cases h; exact interfaceEntries_not_missing _ _ h6
                      | ok oi =>
                        rw [h6] at h
                        cases oi with
                        | none => simp only at h; exact absurd h (by simp)
                        | some xs =>
                          simp only at h
                          cases h7 : linksOptionDict xs with
                          | error e7 =>
                            rw [h7] at h
                            cases h
                            exact linksOptionDictGo_not_missing _ _ _ h7
                          | ok dict =>
                            rw [h7] at h
                            simp only at h
                            exact mergeLinkOptionsGo_not_missing _ _ _ _ h

theorem upsertCheckLoop_not_missing (canon : String → String) :
    ∀ (na : List (Int × String)) (nodes : List LinkNode) (m : List (String × Int)) (e : LmErr),
    upsertCheckLoop canon nodes m na = .error e → e.isMissingNodes = false := by
  intro na
  induction na with
  | nil => intro nodes m e h; exact absurd h (by simp [upsertCheckLoop])
  | cons p rest ih =>
    intro nodes m e h
    obtain ⟨nid, addr⟩ := p
    simp only [upsertCheckLoop] at h
    cases h1 : nodes.find? (fun n => n.nodeid == nid) with
    | none => rw [h1] at h; cases h; rfl
    | some found =>
      rw [h1] at h
      simp only at h
      by_cases hcond : found.addr = "" ∨ canon found.addr ≠ canon addr
      · rw [if_pos hcond] at h
        cases h2 : alistGet? m (canon addr) with
        | some existing => rw [h2] at h; cases h; rfl
        | none => rw [h2] at h; exact ih _ _ _ h
      · rw [if_neg hcond] at h
        exact ih _ _ _ h

theorem writeAddrLoop_not_missing (ln : Nat) (na : List (Int × String)) :
    ∀ (ns : List DomNode) (e : LmErr), (writeAddrLoop ln na ns).1 = some e →
    e.isMissingNodes = false := by
  intro ns
  induction ns with
  | nil => intro e h; exact absurd h (by simp [writeAddrLoop])
  | cons n rest ih =>
    intro e h
    simp only [writeAddrLoop] at h
    cases h1 : nodeIdOf n with
    | error e1 => rw [h1] at h; simp only at h; cases h; exact nodeIdOf_not_missing _ _ h1
    | ok nid => rw [h1] at h; simp only at h; exact ih _ h

theorem upsert_not_missing (canon : String → String) (cfg : DomNode)
    (ls : List (Option Link)) (ln : Nat) (na : List (Int × String)) (e : LmErr)
    (h : (upsert_node_addr_impl canon cfg ls ln na).1 = some e) :
    e.isMissingNodes = false := by
  unfold upsert_node_addr_impl at h
  cases h1 : ls.get? ln with
  | none => rw [h1] at h; simp only at h; cases h; rfl
  | some o =>
    rw [h1] at h
    cases o with
    | none => simp only at h; cases h; rfl
    | some link =>
      simp only at h
      cases h2 : upsertCheckLoop canon link.nodes (existingAddrMap canon ls) na with
      | error e2 =>
        rw [h2] at h
        simp only at h
        cases h
        exact upsertCheckLoop_not_missing canon na _ _ _ h2
      | ok u =>
        rw [h2] at h
        simp only at h
        cases h3 : alistGet? cfg "nodelist" with
        | none => rw [h3] at h; simp only at h; cases h; rfl
        | some v =>
          rw [h3] at h
          cases v with
          | scalar s => simp only at h; cases h; rfl
          | seq es => simp only at h; cases h; rfl
          | node nl =>
            simp only at h
            cases h4 : alistGet? nl "node" with
            | none => rw [h4] at h; simp only at h; cases h; rfl
            | some v2 =>
              rw [h4] at h
              cases v2 with
              | scalar s => simp only at h; cases h; rfl
              | node es => simp only at h; cases h; rfl
              | seq xs =>
                simp only at h
                cases h5 : asNodes .assertionError xs with
                | error e5 =>
                  rw [h5] at h
                  simp only at h
                  cases h
                  rw [asNodes_error_eq _ _ _ h5]
                  rfl
                | ok ns =>
                  rw [h5] at h
                  simp only at h
                  exact writeAddrLoop_not_missing ln na ns e h

theorem update_link_pure_not_missing (cfg : DomNode) (ln : Nat) (options : OptMap)
    (e : LmErr) (h : update_link_pure cfg ln options = .error e) :
    e.isMissingNodes = false := by
  unfold update_link_pure at h
  cases h1 : links cfg with
  | error e1 => rw [h1] at h; cases h; exact links_not_missing _ _ h1
  | ok ls =>
    rw [h1] at h
    simp only at h
    by_cases hge : ln ≥ KNET_LINK_NUM_LIMIT
    · rw [if_pos hge] at h; cases h; rfl
    · rw [if_neg hge] at h
      cases h2 : ls.get? ln with
      | none => rw [h2] at h; cases h; rfl
      | some o =>
        rw [h2] at h
        cases o with
        | none => simp only at h; cases h; rfl
        | some link0 =>
          simp only at h
          by_cases hnodes : options.any (fun p => p.1 = "nodes") = true
          · rw [if_pos hnodes] at h; cases h; rfl
          · rw [if_neg hnodes] at h
            cases h3 : options.find? (fun p => !(LINK_OPTIONS_UPDATABLE.contains p.1)) with
            | some p => rw [h3] at h; cases h; rfl
            | none =>
              rw [h3] at h
              simp only at h
              cases h4 : link0.load_options options with
              | error e4 => rw [h4] at h; cases h; exact load_options_not_missing _ _ _ h4
              | ok link' =>
                rw [h4] at h
                simp only at h
                cases h5 : alistGet? cfg "totem" with
                | none => rw [h5] at h; simp only at h; cases h; rfl
                | some v =>
                  rw [h5] at h
                  cases v with
                  | scalar s => simp only at h; cases h; rfl
                  | seq es => simp only at h; cases h; rfl
                  | node t =>
                    simp only at h
                    cases h6 : alistGet? t "interface" with
                    | none => rw [h6] at h; exact absurd h (by simp)
                    | some v2 =>
                      rw [h6] at h
                      cases v2 with
                      | scalar s => simp only at h; cases h; rfl
                      | node es => simp only at h; cases h; rfl
                      | seq xs =>
                        simp only at h
                        cases h7 : asNodes .attributeError xs with
                        | error e7 =>
                          rw [h7] at h
                          simp only at h
                          cases h
                          rw [asNodes_error_eq _ _ _ h7]
                          rfl
                        | ok interfaces => rw [h7] at h; exact absurd h (by simp)

theorem update_link_not_missing (cfg : DomNode) (ln : Nat) (options : OptMap) (e : LmErr)
    (cfg' : DomNode) (h : update_link cfg ln options = (some e, cfg')) :
    e.isMissingNodes = false := by
  unfold update_link at h
  cases h1 : update_link_pure cfg ln options with
  | error e1 =>
    rw [h1] at h
    simp only [Prod.mk.injEq, Option.some.injEq] at h
    rw [← h.1]
    exact update_link_pure_not_missing _ _ _ _ h1
  | ok c => rw [h1] at h; simp at h

theorem firstFreeSlot_eq_none (ls : List (Option Link)) (h : (none : Option Link) ∉ ls) :
    firstFreeSlot ls = none := by
  induction ls with
  | nil => rfl
  | cons hd rest ih =>
    cases hd with
    | none => exact absurd (by simp) h
    | some l =>
      simp only [firstFreeSlot]
      rw [ih (fun hm => h (by simp [hm]))]
      rfl

theorem firstFreeSlot_spec :
    ∀ (ls : List (Option Link)) (ff : Nat), firstFreeSlot ls = some ff →
    ls.get? ff = some none ∧ ∀ j, j < ff → ls.get? j ≠ some none := by
  intro ls
  induction ls with
  | nil => intro ff h; exact absurd h (by simp [firstFreeSlot])
  | cons hd rest ih =>
    intro ff h
    cases hd with
    | none =>
      simp only [firstFreeSlot] at h
      cases h
      exact ⟨rfl, fun j hj => by omega⟩
    | some l =>
      simp only [firstFreeSlot] at h
      cases h1 : firstFreeSlot rest with
      | none => rw [h1] at h; exact absurd h (by simp)
      | some ff' =>
        rw [h1] at h
        simp only [Option.map] at h
        injection h with h
        subst h
        obtain ⟨hget, hlt⟩ := ih ff' h1
        refine ⟨by simpa using hget, fun j hj => ?_⟩
        cases j with
        | zero => simp
        | succ j' =>
          have := hlt j' (by omega)
          simpa using this

theorem asNodes_map_node (e0 : LmErr) : ∀ ns : List DomNode,
    asNodes e0 (ns.map DomValue.node) = .ok ns := by
  intro ns
  induction ns with
  | nil => rfl
  | cons n rest ih =>
    simp only [asNodes] at ih
    simp only [List.map_cons, asNodes, mapE, asNode, ih]

theorem writeAddrLoop_writes (ln : Nat) (na : List (Int × String)) :
    ∀ (ns ns' : List DomNode), writeAddrLoop ln na ns = (none, ns') →
    ns'.length = ns.length ∧
    ∀ k n nid addr, ns.get? k = some n → nodeIdOf n = .ok nid →
      alistGet? na nid = some addr →
      ∃ n', ns'.get? k = some n' ∧ alistGet? n' (ringAddrKey ln) = some (.scalar addr) := by
  intro ns
  induction ns with
  | nil =>
    intro ns' h
    simp only [writeAddrLoop, Prod.mk.injEq] at h
    rw [← h.2]
    exact ⟨rfl, fun k n nid addr hk => by simp at hk⟩
  | cons n rest ih =>
    intro ns' h
    simp only [writeAddrLoop] at h
    cases hv : nodeIdOf n with
    | error e => rw [hv] at h; simp only [Prod.mk.injEq] at h; exact absurd h.1 (by simp)
    | ok nid0 =>
      rw [hv] at h
      simp only at h
      cases hr : writeAddrLoop ln na rest with
      | mk fst snd =>
        rw [hr] at h
        simp only [Prod.mk.injEq] at h
        obtain ⟨h1, h2⟩ := h
        subst h1
        rw [← h2]
        obtain ⟨hlen, hw⟩ := ih snd hr
        constructor
        · simp [hlen]
        · intro k nn nid addr hk hnid haddr
          cases k with
          | zero =>
            simp only [List.get?] at hk
            cases hk
            rw [hv] at hnid
            injection hnid with hnid
            subst hnid
            rw [haddr]
            exact ⟨_, rfl, alistGet?_set_self _ _ _⟩
          | succ k' =>
            obtain ⟨n', hn', hl⟩ := hw k' nn nid addr (by simpa using hk) hnid haddr
            exact ⟨n', by simpa using hn', hl⟩

theorem update_link_pure_ok_shape (cfg : DomNode) (ln : Nat) (options : OptMap)
    (cfg' : DomNode) (h : update_link_pure cfg ln options = .ok cfg') :
    ∃ t', cfg' = alistSet cfg "totem" (.node t') := by
  unfold update_link_pure at h
  cases h1 : links cfg with
  | error e1 => rw [h1] at h; exact absurd h (by simp)
  | ok ls =>
    rw [h1] at h
    simp only at h
    by_cases hge : ln ≥ KNET_LINK_NUM_LIMIT
    · rw [if_pos hge] at h; exact absurd h (by simp)
    · rw [if_neg hge] at h
      cases h2 : ls.get? ln with
      | none => rw [h2] at h; exact absurd h (by simp)
      | some o =>
        rw [h2] at h
        cases o with
        | none => simp only at h; exact absurd h (by simp)
        | some link0 =>
          simp only at h
          by_cases hnodes : options.any (fun p => p.1 = "nodes") = true
          · rw [if_pos hnodes] at h; exact absurd h (by simp)
          · rw [if_neg hnodes] at h
            cases h3 : options.find? (fun p => !(LINK_OPTIONS_UPDATABLE.contains p.1)) with
            | some p => rw [h3] at h; exact absurd h (by simp)
            | none =>
              rw [h3] at h
              simp only at h
              cases h4 : link0.load_options options with
              | error e4 => rw [h4] at h; exact absurd h (by simp)
              | ok link' =>
                rw [h4] at h
                simp only at h
                cases h5 : alistGet? cfg "totem" with
                | none => rw [h5] at h; simp only at h; exact absurd h (by simp)
                | some v =>
                  rw [h5] at h
                  cases v with
                  | scalar s => simp only at h; exact absurd h (by simp)
                  | seq es => simp only at h; exact absurd h (by simp)
                  | node t =>
                    simp only at h
                    cases h6 : alistGet? t "interface" with
                    | none =>
                      rw [h6] at h
                      simp only [Except.ok.injEq] at h
                      exact ⟨_, h.symm⟩
                    | some v2 =>
                      rw [h6] at h
                      cases v2 with
                      | scalar s => simp only at h; exact absurd h (by simp)
                      | node es => simp only at h; exact absurd h (by simp)
                      | seq xs =>
                        simp only at h
                        cases h7 : asNodes .attributeError xs with
                        | error e7 => rw [h7] at h; simp only at h; exact absurd h (by simp)
                        | ok interfaces =>
                          rw [h7] at h
                          simp only [Except.ok.injEq] at h
                          exact ⟨_, h.symm⟩

theorem getNodeEntries_set_totem (cfg : DomNode) (v : DomValue) :
    getNodeEntries (alistSet cfg "totem" v) = getNodeEntries cfg := by
  unfold getNodeEntries
  rw [alistGet?_set_ne cfg "totem" "nodelist" v (by decide)]

/-- Counterexample for C5 as stated: with all 8 slots occupied and an
address map omitting the only member, `add_link` fails with the capacity
error, not the missing-nodes error the claim's iff demands; and with no
member omitted the call still need not succeed — here it fails because
the address supplied for node 1 duplicates node 2's existing address. -/
theorem add_link_order_counterexample :
    add_link (fun s => s) cfgC5full [] [] = (some .capacityExceeded, cfgC5full) ∧
    add_link (fun s => s) cfgC5 [(1, "10.0.0.2"), (2, "10.0.0.9")] [] =
      (some (.duplicatedNodeAddress "10.0.0.2" 1 2), cfgC5) :=
  ⟨rfl, rfl⟩

theorem upsert_ok_shape (canon : String → String) (cfg : DomNode) (ls2 : List (Option Link))
    (ln : Nat) (na : List (Int × String)) (cfg1 : DomNode)
    (h : upsert_node_addr_impl canon cfg ls2 ln na = (none, cfg1)) :
    ∃ nl xs ns ns', alistGet? cfg "nodelist" = some (.node nl) ∧
      alistGet? nl "node" = some (.seq xs) ∧ asNodes .assertionError xs = .ok ns ∧
      writeAddrLoop ln na ns = (none, ns') ∧
      cfg1 = alistSet cfg "nodelist" (.node (alistSet nl "node"
        (.seq (ns'.map DomValue.node)))) := by
  unfold upsert_node_addr_impl at h
  cases h1 : ls2.get? ln with
  | none => rw [h1] at h; simp at h
  | some o =>
    rw [h1] at h
    cases o with
    | none => simp at h
    | some link =>
      simp only at h
      cases h2 : upsertCheckLoop canon link.nodes (existingAddrMap canon ls2) na with
      | error e2 => rw [h2] at h; simp at h
      | ok u =>
        rw [h2] at h
        simp only at h
        cases h3 : alistGet? cfg "nodelist" with
        | none => rw [h3] at h; simp at h
        | some v =>
          rw [h3] at h
          cases v with
          | scalar s => simp at h
          | seq es => simp at h
          | node nl =>
            simp only at h
            cases h4 : alistGet? nl "node" with
            | none => rw [h4] at h; simp at h
            | some v2 =>
              rw [h4] at h
              cases v2 with
              | scalar s => simp at h
              | node es => simp at h
              | seq xs =>
                simp only at h
                cases h5 : asNodes .assertionError xs with
                | error e5 => rw [h5] at h; simp at h
                | ok ns =>
                  rw [h5] at h
                  simp only at h
                  cases h6 : writeAddrLoop ln na ns with
                  | mk fst snd =>
                    rw [h6] at h
                    simp only [Prod.mk.injEq] at h
                    obtain ⟨hf, hc⟩ := h
                    subst hf
                    exact ⟨nl, xs, ns, snd, rfl, h4, h5, h6, hc.symm⟩

/-- C5 (amended): `add_link` checks capacity before the roster, so with
all 8 slots occupied it fails with the capacity error no matter what the
address map contains; with a free slot and a present link, it fails with
the missing-nodes error (carrying exactly the omitted member ids) iff the
map omits at least one member — no other code path raises that error; and
whenever it succeeds, the new addresses are written as
`ring{ff}_addr` where `ff` is the lowest free linknumber.  (It can still
fail after covering all members, e.g. on a duplicate address or an
invalid option: see the counterexample.) -/
theorem add_link_spec :
    (∀ (canon : String → String) (cfg : DomNode) (ls : List (Option Link))
       (na : List (Int × String)) (options : OptMap),
       links cfg = .ok ls → (none : Option Link) ∉ ls →
       add_link canon cfg na options = (some .capacityExceeded, cfg)) ∧
    (∀ (canon : String → String) (cfg : DomNode) (ls : List (Option Link))
       (na : List (Int × String)) (options : OptMap) (ff : Nat) (l0 : Link),
       links cfg = .ok ls → firstFreeSlot ls = some ff → firstPresent ls = some l0 →
       (((l0.nodes.filter fun n => (alistGet? na n.nodeid).isNone).map (·.nodeid)) ≠ [] →
          add_link canon cfg na options =
            (some (.missingNodes ((l0.nodes.filter fun n =>
              (alistGet? na n.nodeid).isNone).map (·.nodeid))), cfg)) ∧
       (((l0.nodes.filter fun n => (alistGet? na n.nodeid).isNone).map (·.nodeid)) = [] →
          ∀ ids r, add_link canon cfg na options ≠ (some (.missingNodes ids), r))) ∧
    (∀ (canon : String → String) (cfg : DomNode) (ls : List (Option Link))
       (na : List (Int × String)) (options : OptMap) (ff : Nat) (cfg'' : DomNode),
       links cfg = .ok ls → firstFreeSlot ls = some ff →
       add_link canon cfg na options = (none, cfg'') →
       (ls.get? ff = some none ∧ ∀ j, j < ff → ls.get? j ≠ some none) ∧
       ∃ ns ns'', getNodeEntries cfg = .ok (some ns) ∧
         getNodeEntries cfg'' = .ok (some ns'') ∧ ns''.length = ns.length ∧
         ∀ k n nid addr, ns.get? k = some n → nodeIdOf n = .ok nid →
           alistGet? na nid = some addr →
           ∃ n'', ns''.get? k = some n'' ∧
             alistGet? n'' (ringAddrKey ff) = some (.scalar addr)) := by
  refine ⟨?_, ?_, ?_⟩
  · intro canon cfg ls na options h hfull
    unfold add_link
    rw [h]
    simp only
    rw [firstFreeSlot_eq_none ls hfull]
  · intro canon cfg ls na options ff l0 h hff hfp
    constructor
    · intro hmiss
      unfold add_link
      rw [h]
      simp only
      rw [hff]
      simp only
      rw [hfp]
      simp only
      rw [if_pos hmiss]
    · intro hmiss0 ids r heq
      unfold add_link at heq
      rw [h] at heq
      simp only at heq
      rw [hff] at heq
      simp only at heq
      rw [hfp] at heq
      simp only at heq
      rw [if_neg (fun hc => hc hmiss0)] at heq
      split at heq
      next e cfg1 hcase =>
        simp only [Prod.mk.injEq, Option.some.injEq] at heq
        have hnm := upsert_not_missing canon cfg _ ff na e (by rw [hcase])
        rw [heq.1] at hnm
        simp [LmErr.isMissingNodes] at hnm
      next cfg1 hcase =>
        have hnm := update_link_not_missing cfg1 ff options _ r heq
        simp [LmErr.isMissingNodes] at hnm
  · intro canon cfg ls na options ff cfg'' h hff hsucc
    have hspec := firstFreeSlot_spec ls ff hff
    refine ⟨hspec, ?_⟩
    unfold add_link at hsucc
    rw [h] at hsucc
    simp only at hsucc
    rw [hff] at hsucc
    simp only at hsucc
    cases hfp : firstPresent ls with
    | none => rw [hfp] at hsucc; simp at hsucc
    | some l0 =>
      rw [hfp] at hsucc
      simp only at hsucc
      by_cases hmiss :
          ((l0.nodes.filter fun n => (alistGet? na n.nodeid).isNone).map (·.nodeid)) ≠ []
      · rw [if_pos hmiss] at hsucc
        simp at hsucc
      · rw [if_neg hmiss] at hsucc
        split at hsucc
        next e cfg1 hcase => simp at hsucc
        next cfg1 hcase =>
          obtain ⟨nl, xs, ns, ns', hnl, hnode, hasn, hwl, hc1⟩ :=
            upsert_ok_shape canon cfg _ ff na cfg1 hcase
          unfold update_link at hsucc
          cases hp : update_link_pure cfg1 ff options with
          | error e => rw [hp] at hsucc; simp at hsucc
          | ok c2 =>
            rw [hp] at hsucc
            simp only [Prod.mk.injEq] at hsucc
            obtain ⟨t', hshape⟩ := update_link_pure_ok_shape cfg1 ff options c2 hp
            obtain ⟨hlen, hw⟩ := writeAddrLoop_writes ff na ns ns' hwl
            refine ⟨ns, ns', ?_, ?_, hlen, hw⟩
            · unfold getNodeEntries
              rw [hnl]
              simp only
              rw [hnode]
              simp only
              rw [hasn]
            · rw [← hsucc.2, hshape, getNodeEntries_set_totem, hc1]
              unfold getNodeEntries
              rw [alistGet?_set_self]
              simp only
              rw [alistGet?_set_self]
              simp only
              rw [asNodes_map_node]

/-- Witness for C5 at concrete inputs: capacity error with 8 occupied
slots even though the map omits the member; missing-nodes error carrying
`[1, 2]`; and a successful add writing `ring1_addr` (slot 1 being the
lowest free one). -/
theorem add_link_spec_witness :
    add_link (fun s => s) cfgC5full [] [] = (some .capacityExceeded, cfgC5full) ∧
    add_link (fun s => s) cfgC5 [] [] = (some (.missingNodes [1, 2]), cfgC5) ∧
    ∃ cfg'' ns'',
      add_link (fun s => s) cfgC5 [(1, "10.0.1.1"), (2, "10.0.1.2")] [] = (none, cfg'') ∧
      getNodeEntries cfg'' = .ok (some ns'') ∧
      ∃ n0, ns''.get? 0 = some n0 ∧
        alistGet? n0 (ringAddrKey 1) = some (.scalar "10.0.1.1") := by
  have h5f : links cfgC5full = .ok ((links cfgC5full).toOption.getD []) := rfl
  have h5 : links cfgC5 = .ok ((links cfgC5).toOption.getD []) := rfl
  refine ⟨?_, ?_, ?_⟩
  · exact add_link_spec.1 (fun s => s) cfgC5full _ [] [] h5f (by decide)
  · exact (add_link_spec.2.1 (fun s => s) cfgC5 _ [] [] 1 _ h5 rfl rfl).1 (by decide)
  · have hsucc : add_link (fun s => s) cfgC5 [(1, "10.0.1.1"), (2, "10.0.1.2")] [] =
        (none, (add_link (fun s => s) cfgC5 [(1, "10.0.1.1"), (2, "10.0.1.2")] []).2) := rfl
    obtain ⟨-, ns, ns'', hns, hns'', -, hw⟩ :=
      add_link_spec.2.2 (fun s => s) cfgC5 _ [(1, "10.0.1.1"), (2, "10.0.1.2")] [] 1 _
        h5 rfl hsucc
    rw [show getNodeEntries cfgC5 = Except.ok (some
      ([[("nodeid", DomValue.scalar "1"), ("name", DomValue.scalar "alice"),
         ("ring0_addr", DomValue.scalar "10.0.0.1")],
        [("nodeid", DomValue.scalar "2"), ("name", DomValue.scalar "bob"),
         ("ring0_addr", DomValue.scalar "10.0.0.2")]] : List DomNode)) from rfl] at hns
    simp only [Except.ok.injEq, Option.some.injEq] at hns
    subst hns
    obtain ⟨n0, hn0, hr⟩ := hw 0 _ 1 "10.0.1.1" rfl rfl rfl
    exact ⟨_, ns'', hsucc, hns'', n0, hn0, hr⟩

end Crmsh
